import Mathlib

/-!
Verification development for the Pulse Guard nurse-handoff pipeline
(`src/agent`): a shallow embedding, over `List Char` strings, of the
structured-output extractor (`chains/llm.py`), the retry envelope, the five
stage modules with their fallbacks, the deterministic temporal fallback
(`chains/temporal.py`), the pydantic validation layer (`models.py`) and the
orchestrator (`router.py`), together with theorems settling the frozen
claims about them.
-/

/-- Convert a string literal to the `List Char` representation used by the
embedding. -/
def cs (s : String) : List Char := s.toList

/-- Python `str.strip()` whitespace set (space, tab, newline, CR, VT, FF). -/
def isPyWs (c : Char) : Bool :=
  c = ' ' || c = '\t' || c = '\n' || c = '\r' || c = Char.ofNat 11 || c = Char.ofNat 12

/-- Drop leading Python whitespace. -/
def dropLeadWs (xs : List Char) : List Char := xs.dropWhile isPyWs

/-- Drop trailing Python whitespace. -/
def dropTrailWs (xs : List Char) : List Char := (xs.reverse.dropWhile isPyWs).reverse

/-- Python `str.strip()`. -/
def pystrip (xs : List Char) : List Char := dropTrailWs (dropLeadWs xs)

/-- Boolean prefix test on char lists (mirrors how `re`/`str` operations scan
literal patterns). -/
def lpre : List Char → List Char → Bool
  | [], _ => true
  | _ :: _, [] => false
  | a :: as, b :: bs => a = b && lpre as bs

/-- Split a list at the first occurrence of the (nonempty) pattern `pat`:
returns the part before the match and the part after it. `none` when the
pattern does not occur. This is the `re.search`/`str.find` primitive of the
embedding. -/
def splitFirst (pat : List Char) : List Char → Option (List Char × List Char)
  | [] => none
  | x :: xs =>
    if lpre pat (x :: xs) then some ([], (x :: xs).drop pat.length)
    else
      match splitFirst pat xs with
      | some (a, b) => some (x :: a, b)
      | none => none

theorem lpre_eq_append {pat xs : List Char} (h : lpre pat xs = true) :
    xs = pat ++ xs.drop pat.length := by
  induction pat generalizing xs with
  | nil => simp
  | cons a as ih =>
    cases xs with
    | nil => simp [lpre] at h
    | cons b bs =>
      simp only [lpre, Bool.and_eq_true, decide_eq_true_eq] at h
      obtain ⟨rfl, h2⟩ := h
      simpa using ih h2

theorem splitFirst_eq_append {pat xs a b : List Char}
    (h : splitFirst pat xs = some (a, b)) : xs = a ++ pat ++ b := by
  induction xs generalizing a with
  | nil => simp [splitFirst] at h
  | cons x xs ih =>
    by_cases hp : lpre pat (x :: xs) = true
    · simp only [splitFirst, hp, if_true, Option.some.injEq, Prod.mk.injEq] at h
      obtain ⟨rfl, rfl⟩ := h
      simpa using lpre_eq_append hp
    · simp only [splitFirst, hp, if_false, Bool.false_eq_true] at h
      cases hsf : splitFirst pat xs with
      | none => rw [hsf] at h; exact absurd h (by simp)
      | some p =>
        obtain ⟨a', b'⟩ := p
        rw [hsf] at h
        simp only [Option.some.injEq, Prod.mk.injEq] at h
        obtain ⟨rfl, rfl⟩ := h
        simpa using ih hsf

theorem splitFirst_length {pat xs a b : List Char} (hpat : pat ≠ [])
    (h : splitFirst pat xs = some (a, b)) : b.length < xs.length := by
  have := splitFirst_eq_append h
  subst this
  have : 0 < pat.length := List.length_pos.mpr hpat
  simp [List.length_append]
  omega

/-- First head-char of a nonempty pattern. -/
theorem lpre_cons_head {p : Char} {ps : List Char} {x : Char} {xs : List Char}
    (h : lpre (p :: ps) (x :: xs) = true) : p = x := by
  simp only [lpre, Bool.and_eq_true, decide_eq_true_eq] at h
  exact h.1

/-- If the head char of the pattern never occurs in `xs`, the pattern does not
occur. -/
theorem splitFirst_eq_none_of_not_mem {p : Char} {ps xs : List Char}
    (h : p ∉ xs) : splitFirst (p :: ps) xs = none := by
  induction xs with
  | nil => rfl
  | cons x xs ih =>
    have hpx : lpre (p :: ps) (x :: xs) = false := by
      cases hl : lpre (p :: ps) (x :: xs) with
      | false => rfl
      | true => exact absurd (lpre_cons_head hl ▸ List.mem_cons_self x xs) h
    have hx : p ∉ xs := fun hm => h (List.mem_cons_of_mem _ hm)
    simp [splitFirst, hpx, ih hx]

theorem lpre_self_append (l b : List Char) : lpre l (l ++ b) = true := by
  induction l with
  | nil => rfl
  | cons x xs ih => simpa [lpre] using ih

/-- Locating a pattern that starts with `p` across an explicit boundary:
the first occurrence in `a ++ pat ++ b` is the explicit one when `a` avoids
the head char `p`. -/
theorem splitFirst_boundary {p : Char} {ps a b : List Char} (h : p ∉ a) :
    splitFirst (p :: ps) (a ++ (p :: ps) ++ b) = some (a, b) := by
  induction a with
  | nil =>
    have hl : lpre (p :: ps) (p :: (ps ++ b)) = true := by
      simp only [← List.cons_append]
      exact lpre_self_append (p :: ps) b
    have hd : List.drop (p :: ps).length (p :: (ps ++ b)) = b := by
      simpa using (List.drop_left (p :: ps) b)
    simp only [List.nil_append, List.cons_append, splitFirst, List.append_eq,
      hl, if_true, hd]
  | cons x a ih =>
    have hx : p ≠ x := fun he => h (he ▸ List.mem_cons_self x a)
    have ha : p ∉ a := fun hm => h (List.mem_cons_of_mem _ hm)
    have key := ih ha
    have hpx : lpre (p :: ps) (x :: (a ++ (p :: ps) ++ b)) = false := by
      cases hl : lpre (p :: ps) (x :: (a ++ (p :: ps) ++ b)) with
      | false => rfl
      | true => exact absurd (lpre_cons_head hl) hx
    simp only [List.append_assoc, List.cons_append] at key hpx ⊢
    simp only [splitFirst, List.append_eq, hpx, Bool.false_eq_true, if_false, key]

/-- Python `str.replace(pat, rep)` for a nonempty pattern: replace all
occurrences left to right, continuing after each replacement. The scan
consumes at least one char per step, so the input length is a sufficient
(structural) fuel. -/
def replaceAllF (p : Char) (ps rep : List Char) : Nat → List Char → List Char
  | 0, xs => xs
  | _, [] => []
  | fuel + 1, x :: xs =>
    if lpre (p :: ps) (x :: xs) then
      rep ++ replaceAllF p ps rep fuel ((x :: xs).drop (p :: ps).length)
    else
      x :: replaceAllF p ps rep fuel xs

/-- Python `str.replace(pat, rep)`, `pat = p :: ps`. -/
def replaceAll (p : Char) (ps rep xs : List Char) : List Char :=
  replaceAllF p ps rep xs.length xs

theorem replaceAll_nil (p : Char) (ps rep : List Char) :
    replaceAll p ps rep [] = [] := rfl

theorem replaceAll_not_head {p : Char} {ps rep : List Char} {x : Char}
    {xs : List Char} (h : p ≠ x) :
    replaceAll p ps rep (x :: xs) = x :: replaceAll p ps rep xs := by
  have hpx : lpre (p :: ps) (x :: xs) = false := by
    cases hl : lpre (p :: ps) (x :: xs) with
    | false => rfl
    | true => exact absurd (lpre_cons_head hl) h
  show replaceAllF p ps rep (x :: xs).length (x :: xs) = _
  simp only [List.length_cons, replaceAllF, hpx, Bool.false_eq_true, if_false]
  rfl

/-- Decimal digits of a natural number, as chars (`n + 1` is sufficient fuel
for the division chain). -/
def natDigitsF : Nat → Nat → List Char
  | 0, _ => []
  | fuel + 1, n =>
    if n < 10 then [Char.ofNat (48 + n)]
    else natDigitsF fuel (n / 10) ++ [Char.ofNat (48 + n % 10)]

/-- Decimal digits of a natural number. -/
def natDigits (n : Nat) : List Char := natDigitsF (n + 1) n

/-- Python `f"{n:02d}"`. -/
def fmt2 (n : Nat) : List Char :=
  if n < 10 then '0' :: natDigits n else natDigits n

/-! ## Risk model (`src/agent/models.py`, `src/agent/chains/risk.py`) -/

/-- `RiskSeverity` enum from `models.py`. -/
inductive RiskSeverity
  | LOW
  | MEDIUM
  | HIGH
  | CRITICAL
deriving DecidableEq, Repr

/-- `RiskAlert` pydantic model. The `confidence` float is modelled as a
rational. -/
structure RiskAlert where
  severity : RiskSeverity
  alert_type : List Char
  reason : List Char
  action_required : List Char := cs "Monitor closely."
  confidence : Rat := (8 : Rat) / 10
deriving DecidableEq

/-- `RiskAssessment` pydantic model. -/
structure RiskAssessment where
  alerts : List RiskAlert := []
  overall_risk : RiskSeverity := .LOW
  risk_score : Int := 0
deriving DecidableEq

/-- `_SCORE_MAP` from `chains/risk.py`. The Python dict is keyed by the enum,
so the `.get(..., 0)` default is unreachable and the map is total. -/
def _SCORE_MAP : RiskSeverity → Int
  | .CRITICAL => 100
  | .HIGH => 75
  | .MEDIUM => 50
  | .LOW => 25

/-- Python's `max(xs, key=f)` over a nonempty list: iterate left to right,
replacing the current best only on a strictly greater key (so the first
maximal element wins). Instantiated with `key=lambda a: _SCORE_MAP.get(a.severity, 0)`
as in `_compute_overall_risk`. -/
def maxByScore : RiskAlert → List RiskAlert → RiskAlert
  | best, [] => best
  | best, a :: rest =>
    if _SCORE_MAP best.severity < _SCORE_MAP a.severity then maxByScore a rest
    else maxByScore best rest

/-- `_compute_overall_risk` from `chains/risk.py` (the Python function mutates
`result` in place; the embedding returns the updated record). -/
def _compute_overall_risk (result : RiskAssessment) : RiskAssessment :=
  match result.alerts with
  | [] => { result with overall_risk := .LOW, risk_score := 0 }
  | a :: rest =>
    let highest := maxByScore a rest
    { result with
        overall_risk := highest.severity
        risk_score := _SCORE_MAP highest.severity }

/-- The ranking LOW < MEDIUM < HIGH < CRITICAL, as a numeric rank. -/
def sevRank : RiskSeverity → Nat
  | .LOW => 0
  | .MEDIUM => 1
  | .HIGH => 2
  | .CRITICAL => 3

/-- Maximum of two severities under the ranking. -/
def sevMax (a b : RiskSeverity) : RiskSeverity :=
  if sevRank a < sevRank b then b else a

/-- Maximum severity of a list of alerts (LOW for the empty list). -/
def maxSeverity (alerts : List RiskAlert) : RiskSeverity :=
  alerts.foldl (fun acc a => sevMax acc a.severity) .LOW

instance : Std.Commutative sevMax :=
  ⟨by intro a b; cases a <;> cases b <;> rfl⟩

instance : Std.Associative sevMax :=
  ⟨by intro a b c; cases a <;> cases b <;> cases c <;> rfl⟩

theorem sevMax_low_left (a : RiskSeverity) : sevMax .LOW a = a := by
  cases a <;> rfl

theorem maxByScore_severity (best : RiskAlert) (l : List RiskAlert) :
    (maxByScore best l).severity =
      l.foldl (fun acc a => sevMax acc a.severity) best.severity := by
  induction l generalizing best with
  | nil => rfl
  | cons a rest ih =>
    by_cases hc : _SCORE_MAP best.severity < _SCORE_MAP a.severity
    · rw [maxByScore, if_pos hc, ih, List.foldl_cons]
      have : sevMax best.severity a.severity = a.severity := by
        cases hb : best.severity <;> cases ha : a.severity <;>
          first
          | rfl
          | (rw [hb, ha] at hc; simp [_SCORE_MAP] at hc)
      rw [this]
    · rw [maxByScore, if_neg hc, ih, List.foldl_cons]
      have : sevMax best.severity a.severity = best.severity := by
        cases hb : best.severity <;> cases ha : a.severity <;>
          first
          | rfl
          | (rw [hb, ha] at hc; simp [_SCORE_MAP] at hc)
      rw [this]

theorem compute_overall_severity (alerts : List RiskAlert)
    (o : RiskSeverity) (s : Int) :
    (_compute_overall_risk ⟨alerts, o, s⟩).overall_risk = maxSeverity alerts := by
  cases alerts with
  | nil => rfl
  | cons a rest =>
    show (maxByScore a rest).severity = maxSeverity (a :: rest)
    rw [maxByScore_severity, maxSeverity, List.foldl_cons, sevMax_low_left]

theorem compute_overall_score (alerts : List RiskAlert)
    (o : RiskSeverity) (s : Int) :
    (_compute_overall_risk ⟨alerts, o, s⟩).risk_score =
      if alerts = [] then 0 else _SCORE_MAP (maxSeverity alerts) := by
  cases alerts with
  | nil => rfl
  | cons a rest =>
    show _SCORE_MAP (maxByScore a rest).severity = _
    rw [if_neg (by simp), maxByScore_severity]
    rw [show maxSeverity (a :: rest) =
          rest.foldl (fun acc x => sevMax acc x.severity) a.severity by
        rw [maxSeverity, List.foldl_cons, sevMax_low_left]]

theorem maxSeverity_perm {l₁ l₂ : List RiskAlert} (h : l₁.Perm l₂) :
    maxSeverity l₁ = maxSeverity l₂ := by
  unfold maxSeverity
  rw [← List.foldl_map (f := RiskAlert.severity), ← List.foldl_map (f := RiskAlert.severity)]
  rw [List.foldl_eq_foldr, List.foldl_eq_foldr]
  exact (h.map RiskAlert.severity).foldr_eq _

/-! ## Retry envelope (`invoke_structured` in `src/agent/chains/llm.py`)

The tenacity decorator `retry(stop=stop_after_attempt(3), wait=wait_fixed(2),
retry=retry_if_exception_type(Exception), reraise=True)` wraps `_attempt`.
The embedding abstracts the i-th invocation of `_attempt` as `op i`
(`.ok` = the attempt returned a parsed record, `.error` = it raised), and
returns the envelope's result together with the number of attempts made and
the list of inter-attempt waits (in seconds). -/

/-- One run of the tenacity loop: `fuel` is the number of retries still
allowed after the current attempt, `i` the index of the current attempt. -/
def retryGo (op : Nat → Except ε α) (delay : Nat) :
    Nat → Nat → Except ε α × Nat × List Nat
  | fuel, i =>
    match op i with
    | .ok a => (.ok a, i + 1, [])
    | .error e =>
      match fuel with
      | 0 => (.error e, i + 1, [])
      | f + 1 =>
        let r := retryGo op delay f (i + 1)
        (r.1, r.2.1, delay :: r.2.2)

/-- `invoke_structured`'s envelope: `stop_after_attempt(3)`, `wait_fixed(2)`,
`reraise=True`. -/
def invoke_structured (op : Nat → Except ε α) : Except ε α × Nat × List Nat :=
  retryGo op 2 2 0

theorem retryGo_attempts (op : Nat → Except ε α) (delay fuel i : Nat) :
    (retryGo op delay fuel i).2.1 ≤ i + fuel + 1 := by
  induction fuel generalizing i with
  | zero =>
    rw [retryGo]
    cases op i <;> simp
  | succ f ih =>
    rw [retryGo]
    cases op i with
    | ok a => simp
    | error e =>
      have := ih (i + 1)
      simp only
      omega

theorem retryGo_attempts_ge (op : Nat → Except ε α) (delay fuel i : Nat) :
    i + 1 ≤ (retryGo op delay fuel i).2.1 := by
  induction fuel generalizing i with
  | zero =>
    rw [retryGo]
    cases op i <;> simp
  | succ f ih =>
    rw [retryGo]
    cases op i with
    | ok a => simp
    | error e =>
      have := ih (i + 1)
      simp only
      omega

theorem retryGo_waits (op : Nat → Except ε α) (delay fuel i : Nat) :
    (retryGo op delay fuel i).2.2 =
      List.replicate ((retryGo op delay fuel i).2.1 - (i + 1)) delay := by
  induction fuel generalizing i with
  | zero =>
    rw [retryGo]
    cases op i <;> simp
  | succ f ih =>
    rw [retryGo]
    cases op i with
    | ok a => simp
    | error e =>
      have hle : i + 1 + 1 ≤ (retryGo op delay f (i + 1)).2.1 :=
        retryGo_attempts_ge op delay f (i + 1)
      simp only [ih (i + 1)]
      rw [show (retryGo op delay f (i+1)).2.1 - (i + 1) =
            ((retryGo op delay f (i+1)).2.1 - (i + 1 + 1)) + 1 by omega]
      rfl

theorem retryGo_all_fail (op : Nat → Except ε α) (delay fuel i : Nat)
    (h : ∀ j, i ≤ j → j ≤ i + fuel → ∃ e, op j = .error e) :
    (retryGo op delay fuel i).1 = op (i + fuel) := by
  induction fuel generalizing i with
  | zero =>
    obtain ⟨e, he⟩ := h i (le_refl i) (by omega)
    rw [retryGo, he]
    simp [he]
  | succ f ih =>
    obtain ⟨e, he⟩ := h i (le_refl i) (by omega)
    rw [retryGo, he]
    have := ih (i + 1) (fun j hj1 hj2 => h j (by omega) (by omega))
    simp only
    rw [this]
    congr 1
    omega

/-! ## Remaining pydantic records (`src/agent/models.py`) -/

/-- `Medication` pydantic model (alias resolution happens at the validation
boundary; the record holds the resolved fields). -/
structure Medication where
  name : List Char
  dose : List Char := cs "not specified"
  time_given : List Char := cs "unknown"
  reason : Option (List Char) := none
deriving DecidableEq

/-- `Vital` pydantic model. -/
structure Vital where
  type : List Char
  value : List Char
  systolic : Option Int := none
  diastolic : Option Int := none
  trend : Option (List Char) := some (cs "unknown")
deriving DecidableEq

/-- `Symptom` pydantic model. -/
structure Symptom where
  description : List Char
  severity : Option (List Char) := some (cs "mild")
deriving DecidableEq

/-- `TemporalEvent` pydantic model. -/
structure TemporalEvent where
  event : List Char
  absolute_time : List Char
  relative_original : List Char := []
deriving DecidableEq

/-- `HandoffSummary` pydantic model (validated form). -/
structure HandoffSummary where
  patient_name : List Char := cs "Unknown"
  bed : List Char := cs "Not stated"
  age : Option Int := none
  chief_complaint : Option (List Char) := none
deriving DecidableEq

/-- `ExtractedData` pydantic model (validated form). -/
structure ExtractedData where
  summary : HandoffSummary
  medications : List Medication := []
  vitals : List Vital := []
  symptoms : List Symptom := []
  pending_tasks : List (List Char) := []
deriving DecidableEq

/-- `TemporalData` pydantic model. `calculated_times` is a string-keyed dict
of auxiliary values, modelled as an association list. -/
structure TemporalData where
  handoff_time : List Char
  events : List TemporalEvent := []
  next_dose_times : List (List Char) := []
  calculated_times : List (List Char × List Char) := []
deriving DecidableEq

/-- `Omission` pydantic model. -/
structure Omission where
  type : List Char
  severity : RiskSeverity
  reason : List Char
  expected_in_handoff : List Char := []
deriving DecidableEq

/-- `OmissionAnalysis` pydantic model. -/
structure OmissionAnalysis where
  omissions : List Omission := []
  high_risk_conditions_mentioned : List (List Char) := []
  missing_critical_items : List (List Char) := []
deriving DecidableEq

/-- `HinglishSummary` pydantic model. -/
structure HinglishSummary where
  patient_overview : List Char
  medications : List (List Char)
  risk_alerts : List (List Char)
  missing_info : List (List Char)
  action_items : List (List Char)
deriving DecidableEq

/-- `AgentOutput` pydantic model. Wall-clock latency is not modelled; the
orchestrator writes a fixed 0 into `processing_time_ms`. -/
structure AgentOutput where
  extracted : ExtractedData
  temporal : TemporalData
  risks : RiskAssessment
  omissions : OmissionAnalysis
  hinglish_summary : HinglishSummary
  processing_time_ms : Nat
deriving DecidableEq

/-! ## Deterministic temporal fallback (`src/agent/chains/temporal.py`) -/

/-- Value of a list of decimal digit chars (Python `int(...)` on the capture
group). -/
def digitsToNat (ds : List Char) : Nat :=
  ds.foldl (fun n c => n * 10 + (c.toNat - 48)) 0

/-- Maximal leading digit run (regex `\d+` is greedy; for the four fallback
patterns a shorter run would put a digit where the pattern next requires a
letter, so the maximal run is the only viable capture and no backtracking is
lost). -/
def takeDigits : List Char → List Char × List Char
  | [] => ([], [])
  | x :: xs =>
    if x.isDigit then
      let r := takeDigits xs
      (x :: r.1, r.2)
    else ([], x :: xs)

/-- `datetime.strptime(s, "%H:%M")`: 1-2 digit hour below 24, colon, 1-2 digit
minute below 60, nothing else; `none` models the `ValueError`. -/
def parseHM (s : List Char) : Option (Nat × Nat) :=
  match splitFirst [':'] s with
  | none => none
  | some (h, m) =>
    if h ≠ [] && h.length ≤ 2 && h.all Char.isDigit
        && m ≠ [] && m.length ≤ 2 && m.all Char.isDigit
        && digitsToNat h < 24 && digitsToNat m < 60 then
      some (digitsToNat h, digitsToNat m)
    else none

/-- Errors are the exception message. -/
abbrev Err := List Char

deriving instance DecidableEq for Except

/-- Minutes from `datetime.min` (0001-01-01 00:00) to the `strptime`
base date 1900-01-01 00:00: 693595 days. -/
def MIN_DATETIME_MINUTES : Nat := 693595 * 1440

/-- `_hours_ago` from `chains/temporal.py`: `strptime` gives a datetime on
1900-01-01; subtracting `timedelta(hours=hours)` raises `OverflowError` when
the result falls below `datetime.min` (year 1) — and only `ValueError` (a
failed parse, modelled by `parseHM` = `none`) is caught, so that
`OverflowError` escapes. (For astronomically larger `hours` the `timedelta`
constructor itself raises `OverflowError` first; the escaping exception type
is the same and that range satisfies the same inequality.) Otherwise
`strftime("%H:%M")` is the subtraction modulo 24h. -/
def _hours_ago (handoff_time : List Char) (hours : Nat) : Except Err (List Char) :=
  match parseHM handoff_time with
  | none => .ok handoff_time
  | some (h, m) =>
    if MIN_DATETIME_MINUTES + 60 * h + m < 60 * hours then
      .error (cs "OverflowError: date value out of range")
    else
      let total : Int := (h * 60 + m : Int) - hours * 60
      let t : Nat := (total.emod 1440).toNat
      .ok (fmt2 (t / 60) ++ ':' :: fmt2 (t % 60))

/-- Case-insensitive literal match (pattern given in lowercase), returning the
matched chars (original case) and the remainder. -/
def matchLitCI : List Char → List Char → Option (List Char × List Char)
  | [], xs => some ([], xs)
  | _ :: _, [] => none
  | l :: ls, x :: xs =>
    if x.toLower = l then
      match matchLitCI ls xs with
      | some (m, r) => some (x :: m, r)
      | none => none
    else none

/-- A match result: whole matched text, first capture group, second capture
group (empty when the pattern has none), and the rest of the input. -/
abbrev ReMatch := List Char × List Char × List Char × List Char

/-- Regex `(\d+)\s*baje` at the current position. -/
def matchBaje (xs : List Char) : Option ReMatch :=
  let d := takeDigits xs
  if d.1 = [] then none
  else
    let ws := d.2.takeWhile isPyWs
    match matchLitCI (cs "baje") (d.2.dropWhile isPyWs) with
    | some (m, rest) => some (d.1 ++ ws ++ m, d.1, [], rest)
    | none => none

/-- Regex `(\d+)\s*(am|pm)` at the current position. -/
def matchAmPm (xs : List Char) : Option ReMatch :=
  let d := takeDigits xs
  if d.1 = [] then none
  else
    let ws := d.2.takeWhile isPyWs
    let r2 := d.2.dropWhile isPyWs
    match matchLitCI (cs "am") r2 with
    | some (m, rest) => some (d.1 ++ ws ++ m, d.1, m, rest)
    | none =>
      match matchLitCI (cs "pm") r2 with
      | some (m, rest) => some (d.1 ++ ws ++ m, d.1, m, rest)
      | none => none

/-- Regex `(\d+)\s*o'?clock` at the current position (the apostrophe is
`Char.ofNat 39`). -/
def matchOclock (xs : List Char) : Option ReMatch :=
  let d := takeDigits xs
  if d.1 = [] then none
  else
    let ws := d.2.takeWhile isPyWs
    let r2 := d.2.dropWhile isPyWs
    match matchLitCI (cs "o") r2 with
    | none => none
    | some (mo, r3) =>
      let apos :=
        if r3.headD ' ' = Char.ofNat 39 then ([Char.ofNat 39], r3.tail)
        else ([], r3)
      match matchLitCI (cs "clock") apos.2 with
      | some (mc, rest) => some (d.1 ++ ws ++ mo ++ apos.1 ++ mc, d.1, [], rest)
      | none => none

/-- Regex `(\d+)\s*hours?\s*ago` at the current position. -/
def matchHoursAgo (xs : List Char) : Option ReMatch :=
  let d := takeDigits xs
  if d.1 = [] then none
  else
    let ws := d.2.takeWhile isPyWs
    let r2 := d.2.dropWhile isPyWs
    match matchLitCI (cs "hour") r2 with
    | none => none
    | some (mh, r3) =>
      let s :=
        if (r3.headD ' ').toLower = 's' then ([r3.headD ' '], r3.tail)
        else ([], r3)
      let ws2 := s.2.takeWhile isPyWs
      match matchLitCI (cs "ago") (s.2.dropWhile isPyWs) with
      | some (ma, rest) =>
        some (d.1 ++ ws ++ mh ++ s.1 ++ ws2 ++ ma, d.1, [], rest)
      | none => none

/-- `re.finditer`: scan left to right, non-overlapping, advancing one char on
failure; `fuel` bounds the scan by the input length. -/
def finditer (m : List Char → Option ReMatch) : Nat → List Char → List ReMatch
  | 0, _ => []
  | _, [] => []
  | fuel + 1, x :: xs =>
    match m (x :: xs) with
    | some r => r :: finditer m fuel r.2.2.2
    | none => finditer m fuel xs

/-- Python `str.upper()` (ASCII). -/
def upperL (xs : List Char) : List Char := xs.map Char.toUpper

/-- The first three entries of the `numeric_patterns` pass of
`_fallback_temporal_parsing` (baje, am/pm, o'clock): their formatter lambdas
cannot raise. -/
def numericEventsSafe (transcript : List Char) : List TemporalEvent :=
  ((finditer matchBaje transcript.length transcript).map fun r =>
    { event := cs "Time reference: " ++ r.1
      absolute_time := fmt2 (digitsToNat r.2.1) ++ cs ":00"
      relative_original := r.1 })
  ++ ((finditer matchAmPm transcript.length transcript).map fun r =>
    { event := cs "Time reference: " ++ r.1
      absolute_time := r.2.1 ++ cs ":00 " ++ upperL r.2.2.1
      relative_original := r.1 })
  ++ ((finditer matchOclock transcript.length transcript).map fun r =>
    { event := cs "Time reference: " ++ r.1
      absolute_time := fmt2 (digitsToNat r.2.1) ++ cs ":00"
      relative_original := r.1 })

/-- The fourth `numeric_patterns` entry: its formatter calls `_hours_ago`
inside the append loop, so the first overflowing match raises out of the
loop and discards all events built so far. -/
def hoursAgoEvents (handoff_time : List Char) :
    List ReMatch → Except Err (List TemporalEvent)
  | [] => .ok []
  | r :: rest =>
    match _hours_ago handoff_time (digitsToNat r.2.1) with
    | .error e => .error e
    | .ok t =>
      match hoursAgoEvents handoff_time rest with
      | .error e => .error e
      | .ok es =>
        .ok ({ event := cs "Time reference: " ++ r.1
               absolute_time := t
               relative_original := r.1 } :: es)

/-- `_HINDI_TIME_MAP` from `chains/temporal.py`, in dict insertion order. -/
def _HINDI_TIME_MAP : List (List Char × List Char) :=
  [ (cs "subah", cs "08:00")
  , (cs "savere", cs "07:00")
  , (cs "dopahar", cs "14:00")
  , (cs "sham", cs "18:00")
  , (cs "shaam", cs "18:00")
  , (cs "raat", cs "22:00")
  , (cs "midnight", cs "00:00")
  , (cs "morning", cs "08:00")
  , (cs "afternoon", cs "14:00")
  , (cs "evening", cs "18:00")
  , (cs "night", cs "22:00") ]

/-- Regex word char (`\b` boundary test); ASCII `\w`. -/
def isWordChar (c : Char) : Bool := c.isAlphanum || c = '_'

/-- Case-insensitive literal word match returning only the remainder. -/
def matchWordCI : List Char → List Char → Option (List Char)
  | [], xs => some xs
  | _ :: _, [] => none
  | l :: ls, x :: xs => if x.toLower = l then matchWordCI ls xs else none

/-- `re.search(rf"\b{word}\b", t, re.IGNORECASE) is not None` for a literal
word of word-chars: the word occurs at some position with a non-word char (or
an end of string) on each side. `prevOk` records whether the previous char
was a boundary. -/
def hasWordFrom (w : List Char) (prevOk : Bool) : List Char → Bool
  | [] => false
  | x :: xs =>
    (prevOk &&
      match matchWordCI w (x :: xs) with
      | some rest => !isWordChar (rest.headD ' ')
      | none => false)
    || hasWordFrom w (!isWordChar x) xs

/-- Word-boundary search over the whole transcript. -/
def hasWord (w t : List Char) : Bool := hasWordFrom w true t

/-- The keyword pass of `_fallback_temporal_parsing` over `_HINDI_TIME_MAP`. -/
def keywordEvents (transcript : List Char) : List TemporalEvent :=
  _HINDI_TIME_MAP.filterMap fun p =>
    if hasWord p.1 transcript then
      some { event := cs "Time period: " ++ p.1
             absolute_time := p.2
             relative_original := p.1 }
    else none

/-- `_fallback_temporal_parsing` from `chains/temporal.py`: the numeric
passes run in pattern order, then the keyword pass. There is no exception
handler in this function, so an `OverflowError` from the hours-ago
formatter propagates (`.error`) and no record is produced. -/
def _fallback_temporal_parsing (transcript handoff_time : List Char) :
    Except Err TemporalData :=
  match hoursAgoEvents handoff_time
      (finditer matchHoursAgo transcript.length transcript) with
  | .error e => .error e
  | .ok hevents =>
    .ok { handoff_time := handoff_time
          events := numericEventsSafe transcript
            ++ (hevents ++ keywordEvents transcript)
          next_dose_times := []
          calculated_times := [] }

/-! ## Stage modules (`src/agent/chains/*.py`)

Each stage's generative path (prompt | llm | `invoke_structured`, i.e. the
whole retry envelope) is abstracted as a single outcome `gen`: `.ok r` when
some attempt returned a validated record `r`, `.error e` when the envelope
re-raised (retry exhaustion, collaborator unreachable, malformed output on
every attempt). The retrieval collaborator call `query_clinical_knowledge`
is likewise abstracted as `retr`. Errors are strings. -/

/-- `extract_entities` from `chains/extract.py`: `try: invoke_structured ...
except Exception: return ExtractedData(summary=HandoffSummary(
patient_name="Unknown", bed="Unknown"), ...)`. -/
def extract_entities (gen : Except Err ExtractedData) : Except Err ExtractedData :=
  match gen with
  | .ok r => .ok r
  | .error _ =>
    .ok { summary := { patient_name := cs "Unknown", bed := cs "Unknown" }
          medications := []
          vitals := []
          symptoms := []
          pending_tasks := [] }

/-- The colon-insertion step of the handoff-time normalization:
`if len(s) == 4 and ":" not in s: s = f"{s[:2]}:{s[2:]}"`. -/
def insertColon (s : List Char) : List Char :=
  if s.length = 4 && !(s.contains ':') then s.take 2 ++ ':' :: s.drop 2 else s

/-- The handoff-time normalization at the top of `resolve_temporal`:
`.replace(" AM", "").replace(" PM", "").replace(" ", "")`, then insert a
colon into a 4-char colon-free time. -/
def normalize_handoff_time (handoff_time : List Char) : List Char :=
  insertColon
    (replaceAll ' ' [] []
      (replaceAll ' ' (cs "PM") []
        (replaceAll ' ' (cs "AM") [] handoff_time)))

/-- `resolve_temporal` from `chains/temporal.py`: normalize the handoff time,
then `try: invoke_structured ... except Exception: return
_fallback_temporal_parsing(transcript, handoff_time)`. The fallback call
runs inside the `except` handler, so an exception it raises (the
`OverflowError` path of `_hours_ago`) propagates out of the stage. -/
def resolve_temporal (gen : Except Err TemporalData)
    (transcript handoff_time : List Char) : Except Err TemporalData :=
  let ht := normalize_handoff_time handoff_time
  match gen with
  | .ok r => .ok r
  | .error _ => _fallback_temporal_parsing transcript ht

/-- `detect_risks` from `chains/risk.py`. The calls `_build_risk_query` and
`query_clinical_knowledge` happen BEFORE the `try:` block, so a retrieval
failure propagates; inside the `try`, a generation failure yields the safe
fallback, and on success `_compute_overall_risk` overwrites the top-level
fields. -/
def detect_risks (retr : Except Err (List Char))
    (gen : Except Err RiskAssessment) : Except Err RiskAssessment :=
  match retr with
  | .error e => .error e
  | .ok _rag_context =>
    match gen with
    | .ok result => .ok (_compute_overall_risk result)
    | .error _ => .ok { alerts := [], overall_risk := .LOW, risk_score := 0 }

/-- `analyze_omissions` from `chains/omissions.py`. As in `detect_risks`, the
retrieval call sits before the `try:` block. -/
def analyze_omissions (retr : Except Err (List Char))
    (gen : Except Err OmissionAnalysis) : Except Err OmissionAnalysis :=
  match retr with
  | .error e => .error e
  | .ok _rag_context =>
    match gen with
    | .ok result => .ok result
    | .error _ =>
      .ok { omissions := []
            high_risk_conditions_mentioned := []
            missing_critical_items := [] }

/-- `_FALLBACK` from `chains/summarize.py`. -/
def _FALLBACK : HinglishSummary :=
  { patient_overview := cs "Summary generate nahi ho paya."
    medications := []
    risk_alerts := []
    missing_info := []
    action_items := [] }

/-- `generate_hinglish_summary` from `chains/summarize.py`: the whole
generative path (including its own `_extract_json`) sits in the `try`; any
failure returns `_FALLBACK`. -/
def generate_hinglish_summary (gen : Except Err HinglishSummary) :
    Except Err HinglishSummary :=
  match gen with
  | .ok r => .ok r
  | .error _ => .ok _FALLBACK

/-! ## Orchestrator (`src/agent/router.py`, `src/agent/models.py`) -/

/-- `HandoffRequest.transcript_must_not_be_empty` (`models.py`): reject a
transcript that is empty after stripping; otherwise the validated request
carries the stripped transcript. `QuickRiskRequest` has the identical
validator. -/
def transcript_must_not_be_empty (transcript : List Char) : Except Err (List Char) :=
  if pystrip transcript = [] then .error (cs "transcript cannot be empty")
  else .ok (pystrip transcript)

/-- The five pipeline stages, for tracking which ones a run invoked. -/
inductive StageName
  | extraction
  | temporal
  | risk
  | omission
  | summarization
deriving DecidableEq, Repr

/-- The per-run outcomes of the external collaborators, one abstract outcome
per stage call made by `process_handoff`. -/
structure PipelineEnv where
  genExtract : Except Err ExtractedData
  genTemporal : Except Err TemporalData
  retrRisk : Except Err (List Char)
  genRisk : Except Err RiskAssessment
  retrOmission : Except Err (List Char)
  genOmission : Except Err OmissionAnalysis
  genSummary : Except Err HinglishSummary

/-- The body of the `try:` block of `process_handoff` (`router.py`): Phase 1
sequential (extract, temporal), Phase 2 `asyncio.gather` (risk and omission
both invoked; the first exception propagates), Phase 3 summary, then assemble
`AgentOutput`. Alongside the result it returns the list of stages invoked. -/
def run_pipeline (env : PipelineEnv) (transcript handoff_time : List Char) :
    Except Err AgentOutput × List StageName :=
  match extract_entities env.genExtract with
  | .error e => (.error e, [.extraction])
  | .ok extracted =>
    match resolve_temporal env.genTemporal transcript handoff_time with
    | .error e => (.error e, [.extraction, .temporal])
    | .ok temporal =>
      let risks := detect_risks env.retrRisk env.genRisk
      let omissions := analyze_omissions env.retrOmission env.genOmission
      match risks with
      | .error e => (.error e, [.extraction, .temporal, .risk, .omission])
      | .ok risksR =>
        match omissions with
        | .error e => (.error e, [.extraction, .temporal, .risk, .omission])
        | .ok omissionsR =>
          match generate_hinglish_summary env.genSummary with
          | .error e =>
            (.error e, [.extraction, .temporal, .risk, .omission, .summarization])
          | .ok hinglish =>
            (.ok { extracted := extracted
                   temporal := temporal
                   risks := risksR
                   omissions := omissionsR
                   hinglish_summary := hinglish
                   processing_time_ms := 0 }
            , [.extraction, .temporal, .risk, .omission, .summarization])

/-- `POST /api/v1/extract`: request validation runs first (FastAPI validates
`HandoffRequest` before the handler); an invalid transcript is surfaced as a
422 user-input error and no stage runs. Inside the handler, any exception is
caught and surfaced as the single top-level `Processing error`. -/
def process_handoff (env : PipelineEnv) (transcript handoff_time : List Char) :
    Except Err AgentOutput × List StageName :=
  match transcript_must_not_be_empty transcript with
  | .error e => (.error e, [])
  | .ok stripped =>
    match run_pipeline env stripped handoff_time with
    | (.error e, stages) => (.error (cs "Processing error: " ++ e), stages)
    | (.ok out, stages) => (.ok out, stages)

/-! ## Structured-output extractor (`_parse_reasoning_output` in
`src/agent/chains/llm.py`)

The four text-cleaning steps before `model_class.model_validate_json(text)`,
as functions on char lists. The final JSON parse + pydantic coercion is kept
abstract (the theorems quantify over it), since the claims compare the text
handed to it. -/

/-- Literal `{` (written via its code point to keep string literals
brace-free). -/
def obrace : Char := Char.ofNat 123

/-- Literal `}`. -/
def cbrace : Char := Char.ofNat 125

def thinkOpen : List Char := cs "<think>"

def thinkClose : List Char := cs "</think>"

/-- Step 1, `re.sub(r"<think>.*?</think>", "", raw, flags=re.DOTALL)`:
non-greedy, global, scanning left to right and continuing after each removed
block; an unterminated opening marker is left in place (the regex does not
match there, and then cannot match anywhere later either). -/
def removeThink : List Char → List Char
  | [] => []
  | x :: xs =>
    if lpre thinkOpen (x :: xs) then
      match h : splitFirst thinkClose ((x :: xs).drop thinkOpen.length) with
      | some (_, rest) => removeThink rest
      | none => x :: removeThink xs
    else x :: removeThink xs
termination_by xs => xs.length
decreasing_by
  · have h1 := splitFirst_length (by decide) h
    have h2 : ((x :: xs).drop thinkOpen.length).length ≤ xs.length := by
      simp [List.length_drop, thinkOpen, cs]
    simp only [List.length_cons]
    omega
  · simp
  · simp

/-- Step 2, `re.sub(r"</?[Aa]nswer>", "", text)`: remove every occurrence of
the four tag spellings, scanning left to right. -/
def removeAnswer : List Char → List Char
  | [] => []
  | x :: xs =>
    if lpre (cs "<Answer>") (x :: xs) then removeAnswer ((x :: xs).drop 8)
    else if lpre (cs "<answer>") (x :: xs) then removeAnswer ((x :: xs).drop 8)
    else if lpre (cs "</Answer>") (x :: xs) then removeAnswer ((x :: xs).drop 9)
    else if lpre (cs "</answer>") (x :: xs) then removeAnswer ((x :: xs).drop 9)
    else x :: removeAnswer xs
termination_by xs => xs.length
decreasing_by
  all_goals simp [List.length_drop]
  all_goals omega

def fenceMark : List Char := cs "```"

/-- Step 3, `re.search(r"```(?:json)?\s*(.*?)\s*```", text, re.DOTALL)` and
`.group(1).strip()`: take the text between the first fence marker (after an
optional `json` tag) and the next fence marker, stripped. The surrounding
`\s*` of the regex and the subsequent `.strip()` together amount to
stripping the interior. -/
def extractFence (xs : List Char) : Option (List Char) :=
  match splitFirst fenceMark xs with
  | none => none
  | some (_, rest) =>
    let rest2 := if lpre (cs "json") rest then rest.drop 4 else rest
    match splitFirst fenceMark rest2 with
    | none => none
    | some (mid, _) => some (pystrip mid)

/-- Index of the first occurrence of `c` (Python `str.find`, as an option
rather than -1). -/
def firstIdxOf (c : Char) : List Char → Option Nat
  | [] => none
  | x :: xs => if x = c then some 0 else (firstIdxOf c xs).map (· + 1)

/-- Index of the last occurrence of `c` (Python `str.rfind`). -/
def lastIdxOf (c : Char) (xs : List Char) : Option Nat :=
  (firstIdxOf c xs.reverse).map (fun i => xs.length - 1 - i)

/-- Step 4: slice from the first `{` to the last `}` when both exist in that
order, else leave the text unchanged. -/
def sliceBraces (xs : List Char) : List Char :=
  match firstIdxOf obrace xs, lastIdxOf cbrace xs with
  | some s, some e => if s < e then (xs.drop s).take (e - s + 1) else xs
  | _, _ => xs

/-- `_parse_reasoning_output` up to (not including) the JSON parse: the text
that reaches `model_class.model_validate_json`. -/
def _parse_reasoning_output (raw : List Char) : List Char :=
  let text := pystrip (removeThink raw)
  let text := pystrip (removeAnswer text)
  let text :=
    match extractFence text with
    | some inner => inner
    | none => text
  sliceBraces text

/-! ## Flat-vs-nested extraction input (`ExtractedData.handle_flat_structure`
and `HandoffSummary` in `src/agent/models.py`)

The generator's JSON object is modelled as a record of optional values over
the key set that the flat handler and the `HandoffSummary` aliases read
(`none` = key absent; a present JSON string is modelled as its text, JSON
`null` values are not distinguished from absent keys). Keys whose Python
spelling contains a space are suffixed `_sp`. -/

structure SummaryDict where
  patient_name : Option (List Char) := none
  patient_name_sp : Option (List Char) := none
  name : Option (List Char) := none
  bed : Option (List Char) := none
  bed_number : Option (List Char) := none
  bed_sp : Option (List Char) := none
  age : Option Int := none
  chief_complaint : Option (List Char) := none
  chief_sp : Option (List Char) := none
  complaint : Option (List Char) := none
  admission_reason : Option (List Char) := none
deriving DecidableEq

/-- The input to `ExtractedData.model_validate`: either a nested `summary`
object or flat top-level fields, plus the list fields. -/
structure ExtractInput where
  summary : Option SummaryDict := none
  flat : SummaryDict := {}
  medications : List Medication := []
  vitals : List Vital := []
  symptoms : List Symptom := []
  pending_tasks : List (List Char) := []
deriving DecidableEq

/-- pydantic `AliasChoices`: the first alias present in the dict wins,
regardless of its value. -/
def firstSome (xs : List (Option (List Char))) : Option (List Char) :=
  xs.findSome? id

/-- `coerce_patient_name` composed with the field default: absent key →
default `"Unknown"`; present `None`-or-blank → `"Unknown"`. -/
def coerce_patient_name (v : Option (List Char)) : List Char :=
  match v with
  | none => cs "Unknown"
  | some s => if pystrip s = [] then cs "Unknown" else s

/-- `coerce_bed` composed with the field default: absent key →
default `"Not stated"`; present `None`-or-blank → `"Not stated"`. -/
def coerce_bed (v : Option (List Char)) : List Char :=
  match v with
  | none => cs "Not stated"
  | some s => if pystrip s = [] then cs "Not stated" else s

/-- `HandoffSummary.model_validate` on a dict: alias resolution in the
declared order, then the two `mode="before"` coercions. -/
def validate_summary (d : SummaryDict) : HandoffSummary :=
  { patient_name :=
      coerce_patient_name (firstSome [d.patient_name, d.patient_name_sp, d.name])
    bed := coerce_bed (firstSome [d.bed, d.bed_number, d.bed_sp])
    age := d.age
    chief_complaint :=
      firstSome [d.chief_complaint, d.chief_sp, d.complaint, d.admission_reason] }

/-- Python `x or y` for a popped string value `x` (absent → `None` → falsy;
present empty string → falsy), where `y` produces the rest of the chain. -/
def pyOr (a : Option (List Char)) (rest : List Char) : List Char :=
  match a with
  | some v => if v = [] then rest else v
  | none => rest

/-- Same, where the tail of the chain may itself be `None`. -/
def pyOrO (a rest : Option (List Char)) : Option (List Char) :=
  match a with
  | some v => if v = [] then rest else some v
  | none => rest

/-- `ExtractedData.handle_flat_structure`: when no `summary` key is present,
build one from the flat fields with the `pop(...) or pop(...) or
pop(..., default)` chains of the source (unpopped leftovers at top level are
ignored by the subsequent validation). -/
def handle_flat_structure (d : ExtractInput) : ExtractInput :=
  match d.summary with
  | some _ => d
  | none =>
    { d with
        summary := some
          { patient_name := some (pyOr d.flat.patient_name
              (pyOr d.flat.patient_name_sp (d.flat.name.getD (cs "Unknown"))))
            bed := some (pyOr d.flat.bed
              (pyOr d.flat.bed_number (d.flat.bed_sp.getD (cs "Unknown"))))
            age := d.flat.age
            chief_complaint := pyOrO d.flat.chief_complaint
              (pyOrO d.flat.chief_sp d.flat.admission_reason) } }

/-- `ExtractedData.model_validate`: the `mode="before"` flat handler, then
field validation (`summary` is always present after the handler; the `getD`
default is unreachable). -/
def validate_extracted (d : ExtractInput) : ExtractedData :=
  let d2 := handle_flat_structure d
  { summary := validate_summary (d2.summary.getD {})
    medications := d2.medications
    vitals := d2.vitals
    symptoms := d2.symptoms
    pending_tasks := d2.pending_tasks }

/-! ## Claim theorems -/

/-- Example alerts used in the C2 statement (values for the non-severity
fields are arbitrary). -/
def medAlert : RiskAlert :=
  { severity := .MEDIUM, alert_type := cs "QT_RISK", reason := cs "example"
    action_required := cs "check", confidence := 1 }

def critAlert : RiskAlert :=
  { severity := .CRITICAL, alert_type := cs "SEPSIS_TRIAD", reason := cs "example"
    action_required := cs "act", confidence := 1 }

/-- **C2.** The RiskRecord's overall severity and score are always recomputed
from the alert list, overwriting the generator's own top-level fields: the
overall severity is the maximum alert severity under LOW < MEDIUM < HIGH <
CRITICAL, the score comes from the fixed map (LOW 25, MEDIUM 50, HIGH 75,
CRITICAL 100), the result is independent of the generator's top-level fields
and of list order; the empty list gives LOW/0 and a MEDIUM+CRITICAL list
gives CRITICAL/100 in either order. -/
theorem overall_risk_recomputed (alerts : List RiskAlert) (o : RiskSeverity) (s : Int) :
    (_compute_overall_risk ⟨alerts, o, s⟩).overall_risk = maxSeverity alerts ∧
    (_compute_overall_risk ⟨alerts, o, s⟩).risk_score =
      (if alerts = [] then 0 else _SCORE_MAP (maxSeverity alerts)) ∧
    (∀ (o' : RiskSeverity) (s' : Int),
      (_compute_overall_risk ⟨alerts, o', s'⟩).overall_risk =
        (_compute_overall_risk ⟨alerts, o, s⟩).overall_risk ∧
      (_compute_overall_risk ⟨alerts, o', s'⟩).risk_score =
        (_compute_overall_risk ⟨alerts, o, s⟩).risk_score) ∧
    (∀ (ctx : List Char) (r : RiskAssessment),
      detect_risks (.ok ctx) (.ok r) = .ok (_compute_overall_risk r)) ∧
    (∀ (alerts₂ : List RiskAlert) (o₂ : RiskSeverity) (s₂ : Int),
      alerts.Perm alerts₂ →
      (_compute_overall_risk ⟨alerts₂, o₂, s₂⟩).overall_risk =
        (_compute_overall_risk ⟨alerts, o, s⟩).overall_risk ∧
      (_compute_overall_risk ⟨alerts₂, o₂, s₂⟩).risk_score =
        (_compute_overall_risk ⟨alerts, o, s⟩).risk_score) ∧
    ((_compute_overall_risk ⟨[], o, s⟩).overall_risk = .LOW ∧
      (_compute_overall_risk ⟨[], o, s⟩).risk_score = 0) ∧
    ((_compute_overall_risk ⟨[medAlert, critAlert], o, s⟩).overall_risk = .CRITICAL ∧
      (_compute_overall_risk ⟨[medAlert, critAlert], o, s⟩).risk_score = 100 ∧
      (_compute_overall_risk ⟨[critAlert, medAlert], o, s⟩).overall_risk = .CRITICAL ∧
      (_compute_overall_risk ⟨[critAlert, medAlert], o, s⟩).risk_score = 100) := by
  refine ⟨compute_overall_severity alerts o s, compute_overall_score alerts o s,
    ?_, ?_, ?_, ⟨rfl, rfl⟩, ⟨rfl, rfl, rfl, rfl⟩⟩
  · intro o' s'
    exact ⟨by rw [compute_overall_severity, compute_overall_severity],
      by rw [compute_overall_score, compute_overall_score]⟩
  · intro ctx r
    rfl
  · intro alerts₂ o₂ s₂ h
    have hnil : (alerts₂ = []) ↔ (alerts = []) := by
      constructor
      · intro h2
        subst h2
        exact h.eq_nil
      · intro h2
        subst h2
        exact h.symm.eq_nil
    constructor
    · rw [compute_overall_severity, compute_overall_severity, maxSeverity_perm h]
    · rw [compute_overall_score, compute_overall_score, maxSeverity_perm h,
        if_congr hnil rfl rfl]

/-- **C2 witness.** The permutation-invariance conjunct applied to the
MEDIUM/CRITICAL example in both orders. -/
theorem overall_risk_recomputed_witness :
    ([medAlert, critAlert] : List RiskAlert).Perm [critAlert, medAlert] ∧
    ((_compute_overall_risk ⟨[critAlert, medAlert], .HIGH, 33⟩).overall_risk =
        (_compute_overall_risk ⟨[medAlert, critAlert], .LOW, 0⟩).overall_risk ∧
      (_compute_overall_risk ⟨[critAlert, medAlert], .HIGH, 33⟩).risk_score =
        (_compute_overall_risk ⟨[medAlert, critAlert], .LOW, 0⟩).risk_score) :=
  ⟨by decide,
    (overall_risk_recomputed [medAlert, critAlert] .LOW 0).2.2.2.2.1
      [critAlert, medAlert] .HIGH 33 (by decide)⟩

/-- **C4.** The retry envelope makes at most 3 attempts, waits a fixed 2
seconds between consecutive attempts (no backoff), and when every attempt
fails it re-raises the final (third) attempt's failure unmodified. -/
theorem retry_envelope_contract {ε α : Type} (op : Nat → Except ε α) :
    (invoke_structured op).2.1 ≤ 3 ∧
    (invoke_structured op).2.2 =
      List.replicate ((invoke_structured op).2.1 - 1) 2 ∧
    ((∀ j, j < 3 → ∃ e, op j = .error e) → (invoke_structured op).1 = op 2) := by
  refine ⟨?_, ?_, ?_⟩
  · have := retryGo_attempts op 2 2 0
    simpa [invoke_structured] using this
  · have := retryGo_waits op 2 2 0
    simpa [invoke_structured] using this
  · intro h
    have := retryGo_all_fail op 2 2 0 (fun j _ hj => h j (by omega))
    simpa [invoke_structured] using this

/-- **C4 witness.** With every attempt failing, the envelope returns the third
attempt's error after 3 attempts and two 2-second waits. -/
theorem retry_envelope_contract_witness :
    (∀ j, j < 3 → ∃ e, (fun i => (Except.error i : Except Nat Unit)) j = .error e) ∧
    (invoke_structured (fun i => (Except.error i : Except Nat Unit))).1 =
      (fun i => (Except.error i : Except Nat Unit)) 2 ∧
    (invoke_structured (fun i => (Except.error i : Except Nat Unit))).2.1 ≤ 3 ∧
    (invoke_structured (fun i => (Except.error i : Except Nat Unit))).2.2 =
      List.replicate
        ((invoke_structured (fun i => (Except.error i : Except Nat Unit))).2.1 - 1) 2 :=
  ⟨fun j _ => ⟨j, rfl⟩,
    (retry_envelope_contract _).2.2 (fun j _ => ⟨j, rfl⟩),
    (retry_envelope_contract _).1,
    (retry_envelope_contract _).2.1⟩

/-- **C3 counterexample.** Temporal does not always return the deterministic
fallback record on generation failure: a transcript whose "N hours ago"
phrase pushes the 1900-based datetime below year 1 makes the fallback raise
an uncaught `OverflowError` (only `ValueError` is handled in `_hours_ago`),
so the stage propagates an exception instead of returning its safe default. -/
theorem temporal_default_not_returned_on_overflow :
    resolve_temporal (.error (cs "generation backend unreachable"))
        (cs "BP dropped 17000000 hours ago") (cs "07:00 AM")
      = .error (cs "OverflowError: date value out of range") := by
  decide

/-- **C3 (amended).** On persistent generation failure each stage returns
its documented hard-coded safe default — Extraction an unknown-identity
record with empty lists, Risk lowest severity / zero score / no alerts,
Omission an empty record, Summarization the fixed apology narrative with
empty lists — while Temporal invokes the Deterministic Temporal Fallback
and returns exactly its outcome: the fallback record when it completes, but
the fallback's own `OverflowError` when an "N hours ago" phrase overflows
(so Temporal's documented default is not guaranteed on every transcript). -/
theorem stage_fallback_defaults (e₁ e₂ e₃ e₄ e₅ : Err)
    (t ht ctx₁ ctx₂ : List Char) :
    extract_entities (.error e₁) =
      .ok { summary := { patient_name := cs "Unknown", bed := cs "Unknown"
                         age := none, chief_complaint := none }
            medications := [], vitals := [], symptoms := [], pending_tasks := [] } ∧
    resolve_temporal (.error e₂) t ht =
      _fallback_temporal_parsing t (normalize_handoff_time ht) ∧
    detect_risks (.ok ctx₁) (.error e₃) =
      .ok { alerts := [], overall_risk := .LOW, risk_score := 0 } ∧
    analyze_omissions (.ok ctx₂) (.error e₄) =
      .ok { omissions := [], high_risk_conditions_mentioned := []
            missing_critical_items := [] } ∧
    generate_hinglish_summary (.error e₅) =
      .ok { patient_overview := cs "Summary generate nahi ho paya."
            medications := [], risk_alerts := [], missing_info := []
            action_items := [] } :=
  ⟨rfl, rfl, rfl, rfl, rfl⟩

/-- **C1 counterexample.** A retrieval-collaborator failure in `detect_risks`
or `analyze_omissions` happens before the `try:` block and escapes the stage
instead of being replaced by the fallback; and in `resolve_temporal` a
generation failure on a transcript with an overflowing "N hours ago" phrase
makes the fallback raise `OverflowError` out of the `except` handler. Each
refutes the claim that no failure in a stage's generative path ever
propagates to the orchestrator. -/
theorem retrieval_failure_escapes_stage :
    detect_risks (.error (cs "retrieval backend unreachable"))
        (.ok { alerts := [], overall_risk := .LOW, risk_score := 0 }) =
      .error (cs "retrieval backend unreachable") ∧
    analyze_omissions (.error (cs "retrieval backend unreachable"))
        (.ok { omissions := [], high_risk_conditions_mentioned := []
               missing_critical_items := [] }) =
      .error (cs "retrieval backend unreachable") ∧
    resolve_temporal (.error (cs "generation backend unreachable"))
        (cs "dard 17000000 hours ago se shuru hua") (cs "07:00")
      = .error (cs "OverflowError: date value out of range") :=
  ⟨rfl, rfl, by decide⟩

/-- **C1 (amended).** Extraction, Risk (retrieval succeeding), Omission
(retrieval succeeding) and Summarization catch every failure of their
generative path (the `invoke_structured` envelope: retry exhaustion,
malformed output, an unreachable generation backend) and return their
fallback; Temporal catches the generation failure and hands back exactly the
Deterministic Temporal Fallback's outcome, which succeeds except when the
fallback itself raises `OverflowError` on an overflowing "N hours ago"
phrase — that exception, like a retrieval-collaborator failure in
`detect_risks`/`analyze_omissions` (whose retrieval call precedes the
`try:` block), escapes the stage and propagates to the orchestrator. -/
theorem stage_failure_boundary (g₁ : Except Err ExtractedData)
    (g₅ : Except Err HinglishSummary) (t ht ctx : List Char) :
    (∃ r, extract_entities g₁ = .ok r) ∧
    (∀ (e : Err), resolve_temporal (.error e) t ht
      = _fallback_temporal_parsing t (normalize_handoff_time ht)) ∧
    (∀ r, resolve_temporal (.ok r) t ht = .ok r) ∧
    (∀ g₃, ∃ r, detect_risks (.ok ctx) g₃ = .ok r) ∧
    (∀ g₄, ∃ r, analyze_omissions (.ok ctx) g₄ = .ok r) ∧
    (∃ r, generate_hinglish_summary g₅ = .ok r) ∧
    (∀ (e : Err) g₃, detect_risks (.error e) g₃ = .error e) ∧
    (∀ (e : Err) g₄, analyze_omissions (.error e) g₄ = .error e) := by
  refine ⟨?_, fun e => rfl, fun r => rfl, ?_, ?_, ?_,
    fun e g₃ => rfl, fun e g₄ => rfl⟩
  · cases g₁ with
    | ok r => exact ⟨r, rfl⟩
    | error e => exact ⟨_, rfl⟩
  · intro g₃
    cases g₃ with
    | ok r => exact ⟨_, rfl⟩
    | error e => exact ⟨_, rfl⟩
  · intro g₄
    cases g₄ with
    | ok r => exact ⟨_, rfl⟩
    | error e => exact ⟨_, rfl⟩
  · cases g₅ with
    | ok r => exact ⟨r, rfl⟩
    | error e => exact ⟨_, rfl⟩

/-- A concrete collaborator environment (every generation call fails,
retrieval succeeds with an empty context blob). -/
def envAllGenFail : PipelineEnv :=
  { genExtract := .error (cs "generation backend unreachable")
    genTemporal := .error (cs "generation backend unreachable")
    retrRisk := .ok []
    genRisk := .error (cs "generation backend unreachable")
    retrOmission := .ok []
    genOmission := .error (cs "generation backend unreachable")
    genSummary := .error (cs "generation backend unreachable") }

/-- **C7.** A request whose transcript is empty or whitespace-only is
rejected by the entry point's validation before any stage runs: the result is
the user-input error and the list of invoked stages is empty. -/
theorem empty_transcript_rejected (env : PipelineEnv) (t ht : List Char)
    (h : pystrip t = []) :
    process_handoff env t ht = (.error (cs "transcript cannot be empty"), []) := by
  unfold process_handoff transcript_must_not_be_empty
  rw [h]
  simp

/-- **C7 witness.** A whitespace-only transcript is rejected with no stage
invoked, in an environment where every generation call would fail. -/
theorem empty_transcript_rejected_witness :
    pystrip (cs "   ") = [] ∧
    process_handoff envAllGenFail (cs "   ") (cs "07:00 AM") =
      (.error (cs "transcript cannot be empty"), []) :=
  ⟨by decide, empty_transcript_rejected envAllGenFail (cs "   ") (cs "07:00 AM") (by decide)⟩

/-- Digit chars are not structural chars of the time format. -/
theorem digit_ne_space {c : Char} (h : c.isDigit = true) : (' ' : Char) ≠ c := by
  intro he
  rw [← he] at h
  simp [Char.isDigit] at h

theorem digit_ne_colon {c : Char} (h : c.isDigit = true) : (':' : Char) ≠ c := by
  intro he
  rw [← he] at h
  simp [Char.isDigit] at h

/-- **C8 counterexample.** A transcript containing the word "morning"
together with an overflowing "N hours ago" phrase produces no 08:00 event:
the numeric pass raises `OverflowError` before the keyword pass runs, so the
fallback returns no record at all. -/
theorem morning_event_lost_on_overflow :
    hasWord (cs "morning") (cs "17000000 hours ago in the morning") = true ∧
    _fallback_temporal_parsing (cs "17000000 hours ago in the morning")
        (cs "07:00")
      = .error (cs "OverflowError: date value out of range") :=
  ⟨by decide, by decide⟩

/-- **C8 (amended).** The deterministic temporal fallback resolves "4 hours
ago" with handoff time "07:00" to "03:00" (subtraction modulo 24h), and
whenever the fallback completes with a record — as it does unless an
"N hours ago" phrase overflows the 1900-based datetime — a transcript
containing the word "morning" (as a `\b`-delimited word) yields an event
with absolute time "08:00". -/
theorem temporal_fallback_resolution :
    _hours_ago (cs "07:00") 4 = .ok (cs "03:00") ∧
    _fallback_temporal_parsing (cs "4 hours ago") (cs "07:00") =
      .ok { handoff_time := cs "07:00"
            events := [ { event := cs "Time reference: 4 hours ago"
                          absolute_time := cs "03:00"
                          relative_original := cs "4 hours ago" } ]
            next_dose_times := []
            calculated_times := [] } ∧
    (∀ t ht r, hasWord (cs "morning") t = true →
      _fallback_temporal_parsing t ht = .ok r →
      { event := cs "Time period: " ++ cs "morning"
        absolute_time := cs "08:00"
        relative_original := cs "morning" } ∈ r.events) := by
  refine ⟨by decide, by decide, ?_⟩
  intro t ht r h hok
  unfold _fallback_temporal_parsing at hok
  cases hha : hoursAgoEvents ht (finditer matchHoursAgo t.length t) with
  | error e =>
    rw [hha] at hok
    exact absurd hok (by simp)
  | ok hevents =>
    rw [hha] at hok
    simp only [Except.ok.injEq] at hok
    rw [← hok]
    apply List.mem_append_right
    apply List.mem_append_right
    unfold keywordEvents
    rw [List.mem_filterMap]
    refine ⟨(cs "morning", cs "08:00"), by decide, ?_⟩
    simp only [h, if_true]

/-- **C8 witness.** A concrete transcript containing "morning" on which the
fallback completes. -/
theorem temporal_fallback_resolution_witness :
    (hasWord (cs "morning") (cs "gave paracetamol in the morning today") = true ∧
      _fallback_temporal_parsing (cs "gave paracetamol in the morning today")
          (cs "07:00")
        = .ok { handoff_time := cs "07:00"
                events := [ { event := cs "Time period: " ++ cs "morning"
                              absolute_time := cs "08:00"
                              relative_original := cs "morning" } ]
                next_dose_times := []
                calculated_times := [] }) ∧
    { event := cs "Time period: " ++ cs "morning"
      absolute_time := cs "08:00"
      relative_original := cs "morning" } ∈
      ({ handoff_time := cs "07:00"
         events := [ { event := cs "Time period: " ++ cs "morning"
                       absolute_time := cs "08:00"
                       relative_original := cs "morning" } ]
         next_dose_times := []
         calculated_times := [] } : TemporalData).events :=
  ⟨⟨by decide, by decide⟩,
    temporal_fallback_resolution.2.2
      (cs "gave paracetamol in the morning today") (cs "07:00") _
      (by decide) (by decide)⟩

/-- Modelled from the spec: "handoff_time (wall-clock reference, normalized
to HH:MM 24-hour form)" — the 24-hour equivalent of a 12-hour wall-clock
time carrying an AM/PM suffix. -/
def equivalent_24h (hour12 minute : Nat) (isPM : Bool) : List Char :=
  let h := if isPM then hour12 % 12 + 12 else hour12 % 12
  fmt2 h ++ ':' :: fmt2 minute

/-- **C9 counterexample.** The pipeline does not convert a PM time to its
24-hour equivalent: it merely strips the suffix, so "07:00 PM" normalizes to
"07:00" rather than the equivalent 24-hour time "19:00". -/
theorem pm_suffix_not_converted :
    normalize_handoff_time (cs "07:00 PM") = cs "07:00" ∧
    equivalent_24h 7 0 true = cs "19:00" ∧
    normalize_handoff_time (cs "07:00 PM") ≠ equivalent_24h 7 0 true := by
  refine ⟨by decide, by decide, ?_⟩
  intro h
  rw [show normalize_handoff_time (cs "07:00 PM") = cs "07:00" by decide,
    show equivalent_24h 7 0 true = cs "19:00" by decide] at h
  exact absurd h (by decide)

/-- **C9 (amended).** The handoff time is normalized only in form: the
` AM`/` PM` suffix and all spaces are stripped (and a colon is inserted into
a 4-digit colon-free time), so a 12-hour `D₁D₂:D₃D₄ PM` input keeps its
digits unchanged and is not shifted to the 24-hour wall-clock equivalent. -/
theorem normalize_strips_pm_suffix (a b c d : Char)
    (ha : a.isDigit = true) (hb : b.isDigit = true)
    (hc : c.isDigit = true) (hd : d.isDigit = true) :
    normalize_handoff_time [a, b, ':', c, d, ' ', 'P', 'M'] = [a, b, ':', c, d] := by
  unfold normalize_handoff_time
  rw [replaceAll_not_head (digit_ne_space ha), replaceAll_not_head (digit_ne_space hb),
    replaceAll_not_head (by decide : (' ' : Char) ≠ ':'),
    replaceAll_not_head (digit_ne_space hc), replaceAll_not_head (digit_ne_space hd),
    show replaceAll ' ' (cs "AM") [] [' ', 'P', 'M'] = [' ', 'P', 'M'] by decide]
  rw [replaceAll_not_head (digit_ne_space ha), replaceAll_not_head (digit_ne_space hb),
    replaceAll_not_head (by decide : (' ' : Char) ≠ ':'),
    replaceAll_not_head (digit_ne_space hc), replaceAll_not_head (digit_ne_space hd),
    show replaceAll ' ' (cs "PM") [] [' ', 'P', 'M'] = [] by decide]
  rw [replaceAll_not_head (digit_ne_space ha), replaceAll_not_head (digit_ne_space hb),
    replaceAll_not_head (by decide : (' ' : Char) ≠ ':'),
    replaceAll_not_head (digit_ne_space hc), replaceAll_not_head (digit_ne_space hd),
    replaceAll_nil]
  simp [insertColon]

/-- **C9 witness.** The amended statement at "07:00 PM". -/
theorem normalize_strips_pm_suffix_witness :
    ('0' : Char).isDigit = true ∧
    normalize_handoff_time (cs "07:00 PM") = cs "07:00" := by
  refine ⟨by decide, ?_⟩
  have h := normalize_strips_pm_suffix '0' '7' '0' '0'
    (by decide) (by decide) (by decide) (by decide)
  rw [show cs "07:00 PM" = ['0', '7', ':', '0', '0', ' ', 'P', 'M'] by decide,
    show cs "07:00" = ['0', '7', ':', '0', '0'] by decide]
  exact h

/-- **C10 counterexample.** The fallback does throw for some transcript and
handoff_time pair: with the well-formed handoff time "07:00", a transcript
containing "17000000 hours ago" makes `_hours_ago` raise `OverflowError`
(the 1900-based datetime falls below year 1; only `ValueError` is caught),
which escapes `_fallback_temporal_parsing`. -/
theorem fallback_throws_on_overflow :
    parseHM (cs "07:00") = some (7, 0) ∧
    _fallback_temporal_parsing (cs "17000000 hours ago") (cs "07:00")
      = .error (cs "OverflowError: date value out of range") :=
  ⟨by decide, by decide⟩

/-- **C10 (amended).** The hours-ago resolution is total on malformed
handoff times: when the handoff time fails to parse as HH:MM, `_hours_ago`
returns it unchanged (the `except ValueError` branch) instead of raising,
and then — since no datetime arithmetic is ever reached — the whole
fallback never throws for any transcript with that handoff time; but with a
well-formed handoff time the fallback can raise `OverflowError` on an
overflowing "N hours ago" phrase, so it is not total on every transcript
and handoff_time pair. -/
theorem hours_ago_total_on_malformed (s : List Char) (n : Nat)
    (h : parseHM s = none) :
    _hours_ago s n = .ok s ∧
    (∀ t, ∃ r, _fallback_temporal_parsing t s = .ok r ∧
      r.handoff_time = s ∧ r.next_dose_times = []) := by
  have h1 : ∀ k, _hours_ago s k = .ok s := by
    intro k
    unfold _hours_ago
    rw [h]
  refine ⟨h1 n, ?_⟩
  intro t
  have hha : ∀ l : List ReMatch, ∃ es, hoursAgoEvents s l = .ok es := by
    intro l
    induction l with
    | nil => exact ⟨[], rfl⟩
    | cons r rest ih =>
      obtain ⟨es, hes⟩ := ih
      refine ⟨{ event := cs "Time reference: " ++ r.1
                absolute_time := s
                relative_original := r.1 } :: es, ?_⟩
      rw [hoursAgoEvents, h1, hes]
  obtain ⟨es, hes⟩ := hha (finditer matchHoursAgo t.length t)
  refine ⟨{ handoff_time := s
            events := numericEventsSafe t ++ (es ++ keywordEvents t)
            next_dose_times := []
            calculated_times := [] }, ?_, rfl, rfl⟩
  unfold _fallback_temporal_parsing
  rw [hes]

/-- **C10 witness.** A malformed handoff time is returned unchanged, and the
fallback completes on a transcript even with a huge hours-ago phrase. -/
theorem hours_ago_total_on_malformed_witness :
    parseHM (cs "garbage") = none ∧
    _hours_ago (cs "garbage") 5 = .ok (cs "garbage") ∧
    (∃ r, _fallback_temporal_parsing (cs "17000000 hours ago") (cs "garbage")
        = .ok r ∧
      r.handoff_time = cs "garbage" ∧ r.next_dose_times = []) :=
  ⟨by decide,
    (hours_ago_total_on_malformed (cs "garbage") 5 (by decide)).1,
    (hours_ago_total_on_malformed (cs "garbage") 5 (by decide)).2
      (cs "17000000 hours ago")⟩
/-- **C6 counterexample.** A flat generator output with no bed field re-nests
to bed "Unknown" (the flat handler's `pop("bed number", "Unknown")` default),
while the equivalent nested input validates to the `HandoffSummary` default
"Not stated" — so the re-nested record is not identical to the nested-input
record. -/
theorem flat_renesting_bed_mismatch :
    (validate_extracted
        { summary := none, flat := { patient_name := some (cs "Ravi") } }).summary.bed
      = cs "Unknown" ∧
    (validate_extracted
        { summary := some { patient_name := some (cs "Ravi") }, flat := {} }).summary.bed
      = cs "Not stated" ∧
    validate_extracted { summary := none, flat := { patient_name := some (cs "Ravi") } } ≠
      validate_extracted { summary := some { patient_name := some (cs "Ravi") }, flat := {} } := by
  refine ⟨by decide, by decide, ?_⟩
  intro h
  have := congrArg (fun r => r.summary.bed) h
  revert this
  decide

theorem firstSome_cons_some (x : List Char) (rest : List (Option (List Char))) :
    firstSome (some x :: rest) = some x := rfl

theorem firstSome_id4 (x : Option (List Char)) :
    firstSome [x, none, none, none] = x := by
  cases x <;> rfl

theorem pyOr_agrees_patient_name (a b n : Option (List Char))
    (ha : ∀ v, a = some v → v ≠ []) (hb : ∀ v, b = some v → v ≠ []) :
    coerce_patient_name (some (pyOr a (pyOr b (n.getD (cs "Unknown"))))) =
      coerce_patient_name (firstSome [a, b, n]) := by
  cases a with
  | some v =>
    have hv := ha v rfl
    simp [pyOr, firstSome, coerce_patient_name, hv]
  | none =>
    cases b with
    | some w =>
      have hw := hb w rfl
      simp [pyOr, firstSome, coerce_patient_name, hw]
    | none =>
      cases n with
      | some u =>
        cases hu : decide (u = []) with
        | true =>
          have : u = [] := of_decide_eq_true hu
          subst this
          simp [pyOr, firstSome, coerce_patient_name]
        | false =>
          have : u ≠ [] := of_decide_eq_false hu
          simp [pyOr, firstSome, coerce_patient_name, this]
      | none =>
        simp [pyOr, firstSome, coerce_patient_name]

theorem pyOr_agrees_bed (a b c : Option (List Char))
    (hpresent : a ≠ none ∨ b ≠ none ∨ c ≠ none)
    (ha : ∀ v, a = some v → v ≠ []) (hb : ∀ v, b = some v → v ≠ []) :
    coerce_bed (some (pyOr a (pyOr b (c.getD (cs "Unknown"))))) =
      coerce_bed (firstSome [a, b, c]) := by
  cases a with
  | some v =>
    have hv := ha v rfl
    simp [pyOr, firstSome, coerce_bed, hv]
  | none =>
    cases b with
    | some w =>
      have hw := hb w rfl
      simp [pyOr, firstSome, coerce_bed, hw]
    | none =>
      cases c with
      | some u =>
        cases hu : decide (u = []) with
        | true =>
          have : u = [] := of_decide_eq_true hu
          subst this
          simp [pyOr, firstSome, coerce_bed]
        | false =>
          have : u ≠ [] := of_decide_eq_false hu
          simp [pyOr, firstSome, coerce_bed, this]
      | none =>
        simp at hpresent

theorem pyOrO_agrees_chief (a b c : Option (List Char))
    (ha : ∀ v, a = some v → v ≠ []) (hb : ∀ v, b = some v → v ≠ []) :
    pyOrO a (pyOrO b c) = firstSome [a, b, none, c] := by
  cases a with
  | some v =>
    have hv := ha v rfl
    simp [pyOrO, firstSome, hv]
  | none =>
    cases b with
    | some w =>
      have hw := hb w rfl
      simp [pyOrO, firstSome, hw]
    | none =>
      cases c <;> simp [pyOrO, firstSome]

/-- **C6 (amended).** When the generator returns summary fields flat at the
top level, validation re-nests them and — provided every flat field that is
present under the recognized flat aliases carries a non-empty value, some bed
alias is present, and the nested-only alias `complaint` is unused — the
resulting record is identical to the one produced from the equivalent nested
input. Without a bed alias the flat path yields bed "Unknown" while the
nested path yields "Not stated". -/
theorem flat_renesting_agrees (f : SummaryDict)
    (meds : List Medication) (vits : List Vital) (syms : List Symptom)
    (tasks : List (List Char))
    (hpn : ∀ v, f.patient_name = some v → v ≠ [])
    (hpnsp : ∀ v, f.patient_name_sp = some v → v ≠ [])
    (hbed : ∀ v, f.bed = some v → v ≠ [])
    (hbednum : ∀ v, f.bed_number = some v → v ≠ [])
    (hcc : ∀ v, f.chief_complaint = some v → v ≠ [])
    (hccsp : ∀ v, f.chief_sp = some v → v ≠ [])
    (hbedpresent : f.bed ≠ none ∨ f.bed_number ≠ none ∨ f.bed_sp ≠ none)
    (hcomplaint : f.complaint = none) :
    validate_extracted
      { summary := none, flat := f, medications := meds, vitals := vits
        symptoms := syms, pending_tasks := tasks } =
    validate_extracted
      { summary := some f, flat := {}, medications := meds, vitals := vits
        symptoms := syms, pending_tasks := tasks } := by
  have hsum : validate_summary
      { patient_name :=
          some (pyOr f.patient_name (pyOr f.patient_name_sp (f.name.getD (cs "Unknown"))))
        bed := some (pyOr f.bed (pyOr f.bed_number (f.bed_sp.getD (cs "Unknown"))))
        age := f.age
        chief_complaint := pyOrO f.chief_complaint (pyOrO f.chief_sp f.admission_reason) }
      = validate_summary f := by
    unfold validate_summary
    rw [hcomplaint, firstSome_cons_some, firstSome_cons_some, firstSome_id4,
      pyOr_agrees_patient_name f.patient_name f.patient_name_sp f.name hpn hpnsp,
      pyOr_agrees_bed f.bed f.bed_number f.bed_sp hbedpresent hbed hbednum,
      pyOrO_agrees_chief f.chief_complaint f.chief_sp f.admission_reason hcc hccsp]
  have e1 : validate_extracted
      { summary := none, flat := f, medications := meds, vitals := vits
        symptoms := syms, pending_tasks := tasks }
      = { summary := validate_summary
            { patient_name := some (pyOr f.patient_name
                (pyOr f.patient_name_sp (f.name.getD (cs "Unknown"))))
              bed := some (pyOr f.bed
                (pyOr f.bed_number (f.bed_sp.getD (cs "Unknown"))))
              age := f.age
              chief_complaint := pyOrO f.chief_complaint
                (pyOrO f.chief_sp f.admission_reason) }
          medications := meds, vitals := vits, symptoms := syms
          pending_tasks := tasks } := rfl
  have e2 : validate_extracted
      { summary := some f, flat := {}, medications := meds, vitals := vits
        symptoms := syms, pending_tasks := tasks }
      = { summary := validate_summary f
          medications := meds, vitals := vits, symptoms := syms
          pending_tasks := tasks } := rfl
  rw [e1, e2, hsum]

/-- **C6 witness.** The amended statement at a concrete flat record that
carries a bed value. -/
theorem flat_renesting_agrees_witness :
    ((cs "Ravi") ≠ ([] : List Char) ∧
      ({ patient_name := some (cs "Ravi"), bed := some (cs "B2") } :
        SummaryDict).bed ≠ none) ∧
    validate_extracted
      { summary := none
        flat := { patient_name := some (cs "Ravi"), bed := some (cs "B2") } } =
    validate_extracted
      { summary := some { patient_name := some (cs "Ravi"), bed := some (cs "B2") }
        flat := {} } :=
  ⟨⟨by decide, by decide⟩,
    flat_renesting_agrees
      { patient_name := some (cs "Ravi"), bed := some (cs "B2") } [] [] [] []
      (fun v hv => by
        simp only [Option.some.injEq] at hv
        rw [← hv]
        decide)
      (fun v hv => by simp at hv)
      (fun v hv => by
        simp only [Option.some.injEq] at hv
        rw [← hv]
        decide)
      (fun v hv => by simp at hv)
      (fun v hv => by simp at hv)
      (fun v hv => by simp at hv)
      (Or.inl (by decide))
      rfl⟩

/-! ## C5: unwrapping lemmas for the structured-output extractor -/

theorem thinkOpen_cons : thinkOpen = '<' :: cs "think>" := rfl

theorem thinkClose_cons : thinkClose = '<' :: cs "/think>" := rfl

theorem removeThink_nil : removeThink [] = [] := by
  rw [removeThink]

theorem removeThink_prose (a : List Char) (h : '<' ∉ a) (b : List Char) :
    removeThink (a ++ b) = a ++ removeThink b := by
  induction a with
  | nil => simp
  | cons x t ih =>
    have hx : x ≠ '<' := fun he => h (he ▸ List.mem_cons_self x t)
    have hpx : lpre thinkOpen (x :: (t ++ b)) = false := by
      rw [thinkOpen_cons]
      cases hl : lpre ('<' :: cs "think>") (x :: (t ++ b)) with
      | false => rfl
      | true => exact absurd (lpre_cons_head hl).symm hx
    have ht : '<' ∉ t := fun hm => h (List.mem_cons_of_mem _ hm)
    rw [List.cons_append, removeThink, hpx]
    simp only [Bool.false_eq_true, if_false, List.cons_append]
    rw [ih ht]

theorem removeThink_block (d rest : List Char) (hd : '<' ∉ d) :
    removeThink (thinkOpen ++ (d ++ (thinkClose ++ rest))) = removeThink rest := by
  have hsplit : splitFirst thinkClose (d ++ (thinkClose ++ rest)) = some (d, rest) := by
    rw [thinkClose_cons]
    have := @splitFirst_boundary '<' (cs "/think>") d rest hd
    simpa [List.append_assoc] using this
  have hl : lpre thinkOpen (thinkOpen ++ (d ++ (thinkClose ++ rest))) = true :=
    lpre_self_append thinkOpen (d ++ (thinkClose ++ rest))
  rw [show thinkOpen ++ (d ++ (thinkClose ++ rest))
      = '<' :: (cs "think>" ++ (d ++ (thinkClose ++ rest))) from rfl] at hl ⊢
  rw [removeThink, hl]
  simp only [if_true]
  split
  · next a' rest' h' =>
    have h2 : splitFirst thinkClose (d ++ (thinkClose ++ rest)) = some (a', rest') := h'
    rw [hsplit] at h2
    simp only [Option.some.injEq, Prod.mk.injEq] at h2
    rw [h2.2]
  · next h' =>
    have h2 : splitFirst thinkClose (d ++ (thinkClose ++ rest)) = none := h'
    rw [hsplit] at h2
    exact absurd h2 (by simp)

theorem removeThink_answer_open (b : List Char) :
    removeThink (cs "<Answer>" ++ b) = '<' :: (cs "Answer>" ++ removeThink b) := by
  rw [show cs "<Answer>" ++ b = '<' :: (cs "Answer>" ++ b) from rfl, removeThink]
  have hpx : lpre thinkOpen ('<' :: (cs "Answer>" ++ b)) = false := rfl
  rw [hpx]
  simp only [Bool.false_eq_true, if_false]
  rw [removeThink_prose (cs "Answer>") (by decide) b]

theorem removeThink_answer_close (b : List Char) :
    removeThink (cs "</Answer>" ++ b) = '<' :: (cs "/Answer>" ++ removeThink b) := by
  rw [show cs "</Answer>" ++ b = '<' :: (cs "/Answer>" ++ b) from rfl, removeThink]
  have hpx : lpre thinkOpen ('<' :: (cs "/Answer>" ++ b)) = false := rfl
  rw [hpx]
  simp only [Bool.false_eq_true, if_false]
  rw [removeThink_prose (cs "/Answer>") (by decide) b]

theorem removeAnswer_nil : removeAnswer [] = [] := by
  rw [removeAnswer]

theorem removeAnswer_prose (a : List Char) (h : '<' ∉ a) (b : List Char) :
    removeAnswer (a ++ b) = a ++ removeAnswer b := by
  induction a with
  | nil => simp
  | cons x t ih =>
    have hx : x ≠ '<' := fun he => h (he ▸ List.mem_cons_self x t)
    have mk : ∀ ps : List Char, lpre ('<' :: ps) (x :: (t ++ b)) = false := by
      intro ps
      cases hl : lpre ('<' :: ps) (x :: (t ++ b)) with
      | false => rfl
      | true => exact absurd (lpre_cons_head hl).symm hx
    have h1 : lpre (cs "<Answer>") (x :: (t ++ b)) = false := mk (cs "Answer>")
    have h2 : lpre (cs "<answer>") (x :: (t ++ b)) = false := mk (cs "answer>")
    have h3 : lpre (cs "</Answer>") (x :: (t ++ b)) = false := mk (cs "/Answer>")
    have h4 : lpre (cs "</answer>") (x :: (t ++ b)) = false := mk (cs "/answer>")
    have ht : '<' ∉ t := fun hm => h (List.mem_cons_of_mem _ hm)
    rw [List.cons_append, removeAnswer, h1, h2, h3, h4]
    simp only [Bool.false_eq_true, if_false, List.cons_append]
    rw [ih ht]

theorem removeAnswer_open (b : List Char) :
    removeAnswer (cs "<Answer>" ++ b) = removeAnswer b := by
  rw [show cs "<Answer>" ++ b = '<' :: (cs "Answer>" ++ b) from rfl, removeAnswer]
  have h1 : lpre (cs "<Answer>") ('<' :: (cs "Answer>" ++ b)) = true :=
    lpre_self_append (cs "<Answer>") b
  rw [h1]
  simp only [if_true]
  have hdrop : List.drop 8 ('<' :: (cs "Answer>" ++ b)) = b :=
    List.drop_left (cs "<Answer>") b
  rw [hdrop]

theorem removeAnswer_close (b : List Char) :
    removeAnswer (cs "</Answer>" ++ b) = removeAnswer b := by
  rw [show cs "</Answer>" ++ b = '<' :: ('/' :: (cs "Answer>" ++ b)) from rfl, removeAnswer]
  have h1 : lpre (cs "<Answer>") ('<' :: ('/' :: (cs "Answer>" ++ b))) = false := rfl
  have h2 : lpre (cs "<answer>") ('<' :: ('/' :: (cs "Answer>" ++ b))) = false := rfl
  have h3 : lpre (cs "</Answer>") ('<' :: ('/' :: (cs "Answer>" ++ b))) = true :=
    lpre_self_append (cs "</Answer>") b
  rw [h1, h2, h3]
  simp only [Bool.false_eq_true, if_false, if_true]
  have hdrop : List.drop 9 ('<' :: '/' :: (cs "Answer>" ++ b)) = b :=
    List.drop_left (cs "</Answer>") b
  rw [hdrop]

theorem not_mem_dropLeadWs {c : Char} {xs : List Char} (h : c ∉ xs) :
    c ∉ dropLeadWs xs :=
  fun hm => h ((List.dropWhile_sublist _).subset hm)

theorem not_mem_dropTrailWs {c : Char} {xs : List Char} (h : c ∉ xs) :
    c ∉ dropTrailWs xs := by
  intro hm
  unfold dropTrailWs at hm
  rw [List.mem_reverse] at hm
  have := (List.dropWhile_sublist _).subset hm
  rw [List.mem_reverse] at this
  exact h this

theorem reverse_headD (M : List Char) (d : Char) :
    M.reverse.headD d = M.getLastD d := by
  rw [List.headD_eq_head?, List.head?_reverse, List.getLastD_eq_getLast?]

theorem dropLeadWs_sandwich (a M rest : List Char) (hM : M ≠ [])
    (hhead : isPyWs (M.headD ' ') = false) :
    dropLeadWs (a ++ (M ++ rest)) = dropLeadWs a ++ (M ++ rest) := by
  unfold dropLeadWs
  rw [List.dropWhile_append]
  by_cases he : (List.dropWhile isPyWs a).isEmpty = true
  · rw [if_pos he]
    rw [List.isEmpty_iff] at he
    rw [he, List.nil_append]
    cases M with
    | nil => exact absurd rfl hM
    | cons m ms =>
      have hm : isPyWs m = false := by simpa using hhead
      rw [List.cons_append, List.dropWhile_cons, hm]
      simp
  · rw [if_neg he]

theorem dropTrailWs_sandwich (a M rest : List Char) (hM : M ≠ [])
    (hlast : isPyWs (M.getLastD ' ') = false) :
    dropTrailWs (a ++ (M ++ rest)) = a ++ (M ++ dropTrailWs rest) := by
  unfold dropTrailWs
  rw [List.reverse_append, List.reverse_append, List.append_assoc,
    List.dropWhile_append]
  have hrevM : isPyWs (M.reverse.headD ' ') = false := by
    rw [reverse_headD]
    exact hlast
  have hMrev : M.reverse ≠ [] := by
    simpa [List.reverse_eq_nil_iff] using hM
  have hkey : List.dropWhile isPyWs (M.reverse ++ a.reverse) =
      M.reverse ++ a.reverse := by
    cases hc : M.reverse with
    | nil => exact absurd hc hMrev
    | cons y ys =>
      have hy : isPyWs y = false := by
        have := hrevM
        rw [hc] at this
        simpa using this
      rw [List.cons_append, List.dropWhile_cons, hy]
      simp
  by_cases he : (List.dropWhile isPyWs rest.reverse).isEmpty = true
  · rw [if_pos he, hkey]
    rw [List.isEmpty_iff] at he
    rw [he]
    simp [List.reverse_append]
  · rw [if_neg he]
    simp [List.reverse_append, List.append_assoc]

theorem pystrip_sandwich (a M rest : List Char) (hM : M ≠ [])
    (hhead : isPyWs (M.headD ' ') = false)
    (hlast : isPyWs (M.getLastD ' ') = false) :
    pystrip (a ++ (M ++ rest)) = dropLeadWs a ++ (M ++ dropTrailWs rest) := by
  unfold pystrip
  rw [dropLeadWs_sandwich a M rest hM hhead]
  exact dropTrailWs_sandwich (dropLeadWs a) M rest hM hlast

theorem pystrip_self (M : List Char) (hM : M ≠ [])
    (hhead : isPyWs (M.headD ' ') = false)
    (hlast : isPyWs (M.getLastD ' ') = false) :
    pystrip M = M := by
  have := pystrip_sandwich [] M [] hM hhead hlast
  simpa [dropLeadWs, dropTrailWs] using this

theorem firstIdxOf_append_left {c : Char} {p : List Char} (x : List Char)
    (h : c ∉ p) :
    firstIdxOf c (p ++ x) = (firstIdxOf c x).map (· + p.length) := by
  induction p with
  | nil =>
    simp only [List.nil_append, List.length_nil]
    cases firstIdxOf c x <;> simp
  | cons y t ih =>
    have hy : y ≠ c := fun he => h (he ▸ List.mem_cons_self y t)
    have ht : c ∉ t := fun hm => h (List.mem_cons_of_mem _ hm)
    rw [List.cons_append, firstIdxOf, if_neg hy, ih ht]
    cases firstIdxOf c x <;> simp <;> omega

theorem firstIdxOf_head {c : Char} {xs : List Char} (hne : xs ≠ [])
    (h : xs.headD ' ' = c) : firstIdxOf c xs = some 0 := by
  cases xs with
  | nil => exact absurd rfl hne
  | cons y t =>
    have : y = c := by simpa using h
    rw [firstIdxOf, if_pos this]

theorem sliceBraces_extract (p J q : List Char)
    (hp : obrace ∉ p) (hq : cbrace ∉ q)
    (hhead : J.headD ' ' = obrace) (hlast : J.getLastD ' ' = cbrace)
    (hlen : 2 ≤ J.length) :
    sliceBraces (p ++ (J ++ q)) = J := by
  have hJne : J ≠ [] := by
    intro h
    rw [h] at hlen
    simp at hlen
  have h1 : firstIdxOf obrace (p ++ (J ++ q)) = some p.length := by
    rw [firstIdxOf_append_left (J ++ q) hp]
    have hJq : firstIdxOf obrace (J ++ q) = some 0 := by
      apply firstIdxOf_head (by simp [hJne])
      cases J with
      | nil => exact absurd rfl hJne
      | cons y t => simpa using hhead
    rw [hJq]
    simp
  have h2 : lastIdxOf cbrace (p ++ (J ++ q)) = some (p.length + J.length - 1) := by
    unfold lastIdxOf
    rw [List.reverse_append, List.reverse_append, List.append_assoc]
    have hqrev : cbrace ∉ q.reverse := by simpa [List.mem_reverse] using hq
    rw [firstIdxOf_append_left (J.reverse ++ p.reverse) hqrev]
    have hJr : firstIdxOf cbrace (J.reverse ++ p.reverse) = some 0 := by
      apply firstIdxOf_head
      · simp [hJne]
      · rw [List.headD_eq_head?, List.head?_append]
        have hrev : J.reverse.head? = some cbrace := by
          rw [List.head?_reverse]
          cases hg : J.getLast? with
          | none => exact absurd (List.getLast?_eq_none_iff.mp hg) hJne
          | some z =>
            rw [List.getLastD_eq_getLast?, hg] at hlast
            simp only [Option.getD_some] at hlast
            rw [hlast]
        rw [hrev]
        rfl
    rw [hJr]
    simp [List.length_append, List.length_reverse]
    omega
  unfold sliceBraces
  rw [h1, h2]
  have hlt : p.length < p.length + J.length - 1 := by omega
  dsimp only
  rw [if_pos hlt]
  have hdrop : (p ++ (J ++ q)).drop p.length = J ++ q := List.drop_left p (J ++ q)
  rw [hdrop]
  have harith : p.length + J.length - 1 - p.length + 1 = J.length := by omega
  rw [harith]
  exact List.take_left J q

theorem fenceMark_cons : fenceMark = '`' :: cs "``" := rfl

theorem extractFence_no_fence {xs : List Char} (h : '`' ∉ xs) :
    extractFence xs = none := by
  unfold extractFence
  rw [fenceMark_cons, splitFirst_eq_none_of_not_mem h]

/-- The interior of the generator's code fence: ```` ```json\nJ\n``` ````. -/
def midOf (hasFence : Bool) (J : List Char) : List Char :=
  if hasFence then cs "```json" ++ ('\n' :: (J ++ ('\n' :: cs "```"))) else J

/-- The answer region: the (optional) fenced interior wrapped in the
(optional) answer tags. -/
def coreOf (hasAns hasFence : Bool) (J : List Char) : List Char :=
  if hasAns then cs "<Answer>" ++ (midOf hasFence J ++ cs "</Answer>")
  else midOf hasFence J

/-- A generator reply: optional reasoning block, leading prose, optional
answer tags, optional code fence, the JSON object `J`, trailing prose. -/
def wrapOutput (hasThink hasAns hasFence : Bool)
    (d pre post J : List Char) : List Char :=
  (if hasThink then thinkOpen ++ (d ++ thinkClose) else []) ++
    (pre ++ (coreOf hasAns hasFence J ++ post))

theorem extractFence_fenced (p q J : List Char)
    (hp : '`' ∉ p) (hq : '`' ∉ q) (hJ : '`' ∉ J) (hJne : J ≠ [])
    (hhead : isPyWs (J.headD ' ') = false)
    (hlast : isPyWs (J.getLastD ' ') = false) :
    extractFence (p ++ (midOf true J ++ q)) = some J := by
  have hmid : midOf true J ++ q
      = fenceMark ++ (cs "json" ++ ('\n' :: (J ++ ('\n' :: (fenceMark ++ q))))) := by
    show (cs "```json" ++ ('\n' :: (J ++ ('\n' :: cs "```")))) ++ q = _
    rw [show cs "```json" = fenceMark ++ cs "json" from rfl]
    simp [List.append_assoc, fenceMark]
  rw [hmid]
  unfold extractFence
  have hb1 : splitFirst fenceMark
      (p ++ (fenceMark ++ (cs "json" ++ ('\n' :: (J ++ ('\n' :: (fenceMark ++ q)))))))
      = some (p, cs "json" ++ ('\n' :: (J ++ ('\n' :: (fenceMark ++ q))))) := by
    rw [fenceMark_cons]
    have := @splitFirst_boundary '`' (cs "``") p
      (cs "json" ++ ('\n' :: (J ++ ('\n' :: (('`' :: cs "``") ++ q))))) hp
    simpa [List.append_assoc] using this
  rw [hb1]
  have hjson : lpre (cs "json")
      (cs "json" ++ ('\n' :: (J ++ ('\n' :: (fenceMark ++ q))))) = true :=
    lpre_self_append (cs "json") _
  dsimp only
  rw [hjson]
  simp only [if_true]
  have hdrop : List.drop 4 (cs "json" ++ ('\n' :: (J ++ ('\n' :: (fenceMark ++ q)))))
      = '\n' :: (J ++ ('\n' :: (fenceMark ++ q))) :=
    List.drop_left (cs "json") _
  rw [hdrop]
  have hb2 : splitFirst fenceMark ('\n' :: (J ++ ('\n' :: (fenceMark ++ q))))
      = some ('\n' :: (J ++ ['\n']), q) := by
    rw [fenceMark_cons]
    have hnotmem : '`' ∉ '\n' :: (J ++ ['\n']) := by
      intro hm
      rcases List.mem_cons.mp hm with h1 | h2
      · exact absurd h1.symm (by decide)
      · rcases List.mem_append.mp h2 with h3 | h4
        · exact hJ h3
        · exact absurd (List.mem_singleton.mp h4).symm (by decide)
    have := @splitFirst_boundary '`' (cs "``")
      ('\n' :: (J ++ ['\n'])) q hnotmem
    simpa [List.append_assoc] using this
  rw [hb2]
  have hstrip : pystrip ('\n' :: (J ++ ['\n'])) = J := by
    have := pystrip_sandwich ['\n'] J ['\n'] hJne hhead hlast
    simpa [dropLeadWs, dropTrailWs, isPyWs] using this
  dsimp only
  rw [hstrip]

theorem not_lt_midOf (hasFence : Bool) {J : List Char} (hJ : '<' ∉ J) :
    '<' ∉ midOf hasFence J := by
  cases hasFence
  · simpa [midOf] using hJ
  · intro hm
    rw [show midOf true J
        = cs "```json" ++ ('\n' :: (J ++ ('\n' :: cs "```"))) from rfl] at hm
    rcases List.mem_append.mp hm with h1 | h2
    · exact absurd h1 (by decide)
    · rcases List.mem_cons.mp h2 with h3 | h4
      · exact absurd h3 (by decide)
      · rcases List.mem_append.mp h4 with h5 | h6
        · exact hJ h5
        · rcases List.mem_cons.mp h6 with h7 | h8
          · exact absurd h7 (by decide)
          · exact absurd h8 (by decide)

theorem not_bt_midOf_false {J : List Char} (hJ : '`' ∉ J) :
    '`' ∉ midOf false J := by
  simpa [midOf] using hJ

theorem midOf_ne_nil (hasFence : Bool) {J : List Char} (hJne : J ≠ []) :
    midOf hasFence J ≠ [] := by
  cases hasFence
  · simpa [midOf] using hJne
  · rw [show midOf true J
      = cs "```json" ++ ('\n' :: (J ++ ('\n' :: cs "```"))) from rfl]
    simp

theorem midOf_headD (hasFence : Bool) {J : List Char}
    (hJh : J.headD ' ' = obrace) :
    isPyWs ((midOf hasFence J).headD ' ') = false := by
  cases hasFence
  · rw [show midOf false J = J from rfl, hJh]
    decide
  · rfl

theorem midOf_getLastD (hasFence : Bool) {J : List Char}
    (hJl : J.getLastD ' ' = cbrace) :
    isPyWs ((midOf hasFence J).getLastD ' ') = false := by
  cases hasFence
  · rw [show midOf false J = J from rfl, hJl]
    decide
  · rw [show midOf true J
      = (cs "```json" ++ ('\n' :: J)) ++ ('\n' :: cs "```") from rfl]
    rw [List.getLastD_eq_getLast?, List.getLast?_append]
    rw [show ('\n' :: cs "```").getLast? = some '`' from by decide]
    rfl

theorem coreOf_ne_nil (hasAns hasFence : Bool) {J : List Char} (hJne : J ≠ []) :
    coreOf hasAns hasFence J ≠ [] := by
  cases hasAns
  · exact midOf_ne_nil hasFence hJne
  · rw [show coreOf true hasFence J
      = cs "<Answer>" ++ (midOf hasFence J ++ cs "</Answer>") from rfl]
    intro h
    rw [List.append_eq_nil] at h
    exact absurd h.1 (by decide)

theorem coreOf_headD (hasAns hasFence : Bool) {J : List Char}
    (hJh : J.headD ' ' = obrace) :
    isPyWs ((coreOf hasAns hasFence J).headD ' ') = false := by
  cases hasAns
  · exact midOf_headD hasFence hJh
  · rfl

theorem coreOf_getLastD (hasAns hasFence : Bool) {J : List Char}
    (hJl : J.getLastD ' ' = cbrace) :
    isPyWs ((coreOf hasAns hasFence J).getLastD ' ') = false := by
  cases hasAns
  · exact midOf_getLastD hasFence hJl
  · rw [show coreOf true hasFence J
      = (cs "<Answer>" ++ midOf hasFence J) ++ cs "</Answer>" from rfl]
    rw [List.getLastD_eq_getLast?, List.getLast?_append]
    rw [show (cs "</Answer>").getLast? = some '>' from by decide]
    rfl

theorem removeThink_noop {xs : List Char} (h : '<' ∉ xs) :
    removeThink xs = xs := by
  have := removeThink_prose xs h []
  simpa [removeThink_nil] using this

theorem removeAnswer_noop {xs : List Char} (h : '<' ∉ xs) :
    removeAnswer xs = xs := by
  have := removeAnswer_prose xs h []
  simpa [removeAnswer_nil] using this

theorem removeThink_core (hasAns hasFence : Bool) (J b : List Char)
    (hJ : '<' ∉ J) :
    removeThink (coreOf hasAns hasFence J ++ b)
      = coreOf hasAns hasFence J ++ removeThink b := by
  cases hasAns
  · exact removeThink_prose _ (not_lt_midOf hasFence hJ) b
  · rw [show coreOf true hasFence J ++ b
      = cs "<Answer>" ++ (midOf hasFence J ++ (cs "</Answer>" ++ b)) from by
        rw [show coreOf true hasFence J
          = cs "<Answer>" ++ (midOf hasFence J ++ cs "</Answer>") from rfl]
        simp [List.append_assoc]]
    rw [removeThink_answer_open,
      removeThink_prose _ (not_lt_midOf hasFence hJ),
      removeThink_answer_close]
    rw [show coreOf true hasFence J ++ removeThink b
      = cs "<Answer>" ++ (midOf hasFence J ++ (cs "</Answer>" ++ removeThink b)) from by
        rw [show coreOf true hasFence J
          = cs "<Answer>" ++ (midOf hasFence J ++ cs "</Answer>") from rfl]
        simp [List.append_assoc]]
    rw [show (cs "<Answer>" : List Char) = '<' :: cs "Answer>" from rfl,
      show (cs "</Answer>" : List Char) = '<' :: cs "/Answer>" from rfl]
    simp [List.append_assoc]

theorem removeAnswer_core (hasAns hasFence : Bool) (J b : List Char)
    (hJ : '<' ∉ J) :
    removeAnswer (coreOf hasAns hasFence J ++ b)
      = midOf hasFence J ++ removeAnswer b := by
  cases hasAns
  · exact removeAnswer_prose _ (not_lt_midOf hasFence hJ) b
  · rw [show coreOf true hasFence J ++ b
      = cs "<Answer>" ++ (midOf hasFence J ++ (cs "</Answer>" ++ b)) from by
        rw [show coreOf true hasFence J
          = cs "<Answer>" ++ (midOf hasFence J ++ cs "</Answer>") from rfl]
        simp [List.append_assoc]]
    rw [removeAnswer_open,
      removeAnswer_prose _ (not_lt_midOf hasFence hJ),
      removeAnswer_close]

theorem parse_reasoning_clean (J : List Char)
    (hJh : J.headD ' ' = obrace) (hJl : J.getLastD ' ' = cbrace)
    (hJlen : 2 ≤ J.length) (hJ1 : '<' ∉ J) (hJ2 : '`' ∉ J) :
    _parse_reasoning_output J = J := by
  have hJne : J ≠ [] := by
    intro h
    rw [h] at hJlen
    simp at hJlen
  have hh : isPyWs (J.headD ' ') = false := by
    rw [hJh]
    decide
  have hl : isPyWs (J.getLastD ' ') = false := by
    rw [hJl]
    decide
  have hs : pystrip J = J := pystrip_self J hJne hh hl
  unfold _parse_reasoning_output
  dsimp only
  rw [removeThink_noop hJ1, hs, removeAnswer_noop hJ1, hs,
    extractFence_no_fence hJ2]
  dsimp only
  have := sliceBraces_extract [] J [] (by simp) (by simp) hJh hJl hJlen
  simpa using this

theorem parse_reasoning_unwraps (hasThink hasAns hasFence : Bool)
    (d pre post J : List Char)
    (hd : '<' ∉ d)
    (hpre1 : '<' ∉ pre) (hpre2 : '`' ∉ pre)
    (hpre3 : obrace ∉ pre) (hpre4 : cbrace ∉ pre)
    (hpost1 : '<' ∉ post) (hpost2 : '`' ∉ post)
    (hpost3 : obrace ∉ post) (hpost4 : cbrace ∉ post)
    (hJh : J.headD ' ' = obrace) (hJl : J.getLastD ' ' = cbrace)
    (hJlen : 2 ≤ J.length) (hJ1 : '<' ∉ J) (hJ2 : '`' ∉ J) :
    _parse_reasoning_output (wrapOutput hasThink hasAns hasFence d pre post J)
      = J := by
  have hJne : J ≠ [] := by
    intro h
    rw [h] at hJlen
    simp at hJlen
  have hrest : removeThink (pre ++ (coreOf hasAns hasFence J ++ post))
      = pre ++ (coreOf hasAns hasFence J ++ post) := by
    rw [removeThink_prose pre hpre1, removeThink_core hasAns hasFence J post hJ1,
      removeThink_noop hpost1]
  have hRT : removeThink (wrapOutput hasThink hasAns hasFence d pre post J)
      = pre ++ (coreOf hasAns hasFence J ++ post) := by
    cases hasThink
    · rw [show wrapOutput false hasAns hasFence d pre post J
        = pre ++ (coreOf hasAns hasFence J ++ post) from by simp [wrapOutput]]
      exact hrest
    · rw [show wrapOutput true hasAns hasFence d pre post J
        = thinkOpen ++ (d ++ (thinkClose
            ++ (pre ++ (coreOf hasAns hasFence J ++ post)))) from by
          simp [wrapOutput, List.append_assoc]]
      rw [removeThink_block _ _ hd]
      exact hrest
  have hS1 : pystrip (pre ++ (coreOf hasAns hasFence J ++ post))
      = dropLeadWs pre ++ (coreOf hasAns hasFence J ++ dropTrailWs post) :=
    pystrip_sandwich pre _ post (coreOf_ne_nil hasAns hasFence hJne)
      (coreOf_headD hasAns hasFence hJh) (coreOf_getLastD hasAns hasFence hJl)
  have hRA : removeAnswer
      (dropLeadWs pre ++ (coreOf hasAns hasFence J ++ dropTrailWs post))
      = dropLeadWs pre ++ (midOf hasFence J ++ dropTrailWs post) := by
    rw [removeAnswer_prose _ (not_mem_dropLeadWs hpre1),
      removeAnswer_core hasAns hasFence J _ hJ1,
      removeAnswer_noop (not_mem_dropTrailWs hpost1)]
  have hS2 : pystrip (dropLeadWs pre ++ (midOf hasFence J ++ dropTrailWs post))
      = dropLeadWs (dropLeadWs pre)
        ++ (midOf hasFence J ++ dropTrailWs (dropTrailWs post)) :=
    pystrip_sandwich _ _ _ (midOf_ne_nil hasFence hJne)
      (midOf_headD hasFence hJh) (midOf_getLastD hasFence hJl)
  unfold _parse_reasoning_output
  dsimp only
  rw [hRT, hS1, hRA, hS2]
  cases hasFence
  · rw [show midOf false J = J from rfl]
    have hnb : '`' ∉ dropLeadWs (dropLeadWs pre)
        ++ (J ++ dropTrailWs (dropTrailWs post)) := by
      intro hm
      rcases List.mem_append.mp hm with h1 | h2
      · exact not_mem_dropLeadWs (not_mem_dropLeadWs hpre2) h1
      · rcases List.mem_append.mp h2 with h3 | h4
        · exact hJ2 h3
        · exact not_mem_dropTrailWs (not_mem_dropTrailWs hpost2) h4
    rw [extractFence_no_fence hnb]
    dsimp only
    exact sliceBraces_extract _ _ _
      (not_mem_dropLeadWs (not_mem_dropLeadWs hpre3))
      (not_mem_dropTrailWs (not_mem_dropTrailWs hpost4)) hJh hJl hJlen
  · have hh : isPyWs (J.headD ' ') = false := by
      rw [hJh]
      decide
    have hl : isPyWs (J.getLastD ' ') = false := by
      rw [hJl]
      decide
    rw [extractFence_fenced _ _ _
      (not_mem_dropLeadWs (not_mem_dropLeadWs hpre2))
      (not_mem_dropTrailWs (not_mem_dropTrailWs hpost2)) hJ2 hJne hh hl]
    dsimp only
    have := sliceBraces_extract [] J [] (by simp) (by simp) hJh hJl hJlen
    simpa using this

/-- **C5.** For every raw generator text formed by wrapping a clean parseable
JSON object in any combination of a reasoning block, answer wrapper tags, a
fenced code block, and leading/trailing prose, the extractor hands the JSON
parser exactly the clean text, hence recovers the same validated record as
from the clean unwrapped text. Clean means the JSON object starts with `{`,
ends with `}` and contains no angle brackets or backticks; prose means text
free of `<`, backticks and braces; the reasoning block's content is free of
`<`. -/
theorem extractor_idempotent_unwrapping {R : Type} (validate : List Char → R)
    (hasThink hasAns hasFence : Bool) (d pre post J : List Char)
    (hd : '<' ∉ d)
    (hpre1 : '<' ∉ pre) (hpre2 : '`' ∉ pre)
    (hpre3 : obrace ∉ pre) (hpre4 : cbrace ∉ pre)
    (hpost1 : '<' ∉ post) (hpost2 : '`' ∉ post)
    (hpost3 : obrace ∉ post) (hpost4 : cbrace ∉ post)
    (hJh : J.headD ' ' = obrace) (hJl : J.getLastD ' ' = cbrace)
    (hJlen : 2 ≤ J.length) (hJ1 : '<' ∉ J) (hJ2 : '`' ∉ J) :
    validate (_parse_reasoning_output
        (wrapOutput hasThink hasAns hasFence d pre post J))
      = validate (_parse_reasoning_output J) ∧
    _parse_reasoning_output J = J := by
  have hclean := parse_reasoning_clean J hJh hJl hJlen hJ1 hJ2
  have hwrap := parse_reasoning_unwraps hasThink hasAns hasFence d pre post J
    hd hpre1 hpre2 hpre3 hpre4 hpost1 hpost2 hpost3 hpost4
    hJh hJl hJlen hJ1 hJ2
  exact ⟨by rw [hwrap, hclean], hclean⟩

/-- **C5 witness.** A concrete reply with all four wrappers present around
the JSON object, and the identity as the validating parser. -/
theorem extractor_idempotent_unwrapping_witness :
    ('<' ∉ cs " let me reason about the vitals first ") ∧
    (id (_parse_reasoning_output
        (wrapOutput true true true
          (cs " let me reason about the vitals first ")
          (cs "Sure, here is the answer: ")
          (cs " Hope this helps!")
          [obrace, cbrace]))
      = id (_parse_reasoning_output [obrace, cbrace]) ∧
    _parse_reasoning_output [obrace, cbrace] = [obrace, cbrace]) :=
  ⟨by decide,
    extractor_idempotent_unwrapping id true true true
      (cs " let me reason about the vitals first ")
      (cs "Sure, here is the answer: ")
      (cs " Hope this helps!")
      [obrace, cbrace]
      (by decide) (by decide) (by decide) (by decide) (by decide)
      (by decide) (by decide) (by decide) (by decide)
      (by decide) (by decide) (by decide) (by decide) (by decide)⟩
